import Mathlib

/-!
Verification development for the gorelease tool
(cmd/gorelease/gorelease.go): a shallow embedding of its report model,
version policy (suggestVersion / validateVersion / isSuccessful), the
decimal string increment, the package merge loop of makeReleaseReport,
and the external version-string helpers it calls
(golang.org/x/mod/semver, golang.org/x/mod/module, Go's path package).

Go strings are byte sequences; we model them as lists of byte values
(`GoStr`), so byte-indexed slicing and byte comparisons behave exactly
as in Go. Go panics are modelled with `Option` or a dedicated
constructor, as noted at each definition.
-/

namespace Gorelease

/-- Go strings modelled as lists of byte values. -/
abbrev GoStr := List Nat

/-- Byte list of an ASCII string literal (used to write concrete inputs). -/
def strBytes (s : String) : GoStr := s.toList.map Char.toNat

/-- Go's `<` on strings: bytewise lexicographic comparison. -/
def goStrLt : GoStr → GoStr → Bool
  | [], [] => false
  | [], _ :: _ => true
  | _ :: _, [] => false
  | a :: as, b :: bs => a < b || (a == b && goStrLt as bs)

/-! ## incDecimal (gorelease.go)

  func incDecimal(decimal string) string {
    digits := []byte(decimal)
    i := len(digits) - 1
    for ; i >= 0 && digits[i] == '9'; i-- { digits[i] = '0' }
    if i >= 0 { digits[i]++ }
    else { digits[0] = '1'; digits = append(digits, '0') }
    return string(digits)
  }
-/

/-- The right-to-left scan of incDecimal, on the reversed byte list:
turns a maximal run of `9` (byte 57) into `0` (byte 48) and increments
the first other byte (Go byte increment wraps at 256). The Bool is true
when the scan ran off the left end (every byte was `9`). -/
def incScanRev : GoStr → GoStr × Bool
  | [] => ([], true)
  | d :: ds =>
    if d = 57 then
      let p := incScanRev ds
      (48 :: p.1, p.2)
    else
      ((d + 1) % 256 :: ds, false)

/-- incDecimal returns the decimal string incremented by 1. On the empty
string the Go code panics (index out of range), modelled as `none`. -/
def incDecimal (decimal : GoStr) : Option GoStr :=
  match decimal with
  | [] => none
  | _ :: _ =>
    let p := incScanRev decimal.reverse
    if p.2 then some ((p.1.reverse.set 0 49) ++ [48])
    else some p.1.reverse

/-! ## splitVersionNumbers (gorelease.go)

  if !strings.HasPrefix(vers, "v") { err }
  base := vers[1:]
  if i := strings.IndexByte(vers, '-'); i >= 0 { base = base[:i] }
  if i := strings.IndexByte(vers, '+'); i >= 0 { base = base[:i] }
  parts := strings.Split(base, ".")
  if len(parts) != 3 { err }
  return parts[0], parts[1], parts[2]

Note both IndexByte calls search `vers` while the slice is taken from
`base = vers[1:]`; we keep that faithfully. -/

/-- strings.IndexByte: index of the first occurrence of a byte. -/
def indexByte : GoStr → Nat → Option Nat
  | [], _ => none
  | c :: cs, b => if c = b then some 0 else (indexByte cs b).map (· + 1)

/-- Go slice expression `s[:i]`; panics (`none`) when `i` exceeds the
length. -/
def goTake (s : GoStr) (i : Nat) : Option GoStr :=
  if i ≤ s.length then some (s.take i) else none

/-- strings.Split on a single separator byte. -/
def splitOnByte (b : Nat) : GoStr → List GoStr
  | [] => [[]]
  | c :: cs =>
    let r := splitOnByte b cs
    if c = b then [] :: r
    else
      match r with
      | [] => [[c]]
      | g :: rest => (c :: g) :: rest

/-- Result of splitVersionNumbers: the Go function returns an error
(`err`), or three component strings; `panicked` marks the slice panic
`base[:i]` with `i > len(base)` that the Go code can hit. -/
inductive SplitVers where
  | panicked : SplitVers
  | err : SplitVers
  | ok (major minor patch : GoStr) : SplitVers
deriving DecidableEq, Repr

/-- splitVersionNumbers returns the major, minor, and patch numbers for
a given version (gorelease.go). -/
def splitVersionNumbers (vers : GoStr) : SplitVers :=
  if vers.head? ≠ some 118 then .err
  else
    let base := vers.drop 1
    let step1 : Option GoStr :=
      match indexByte vers 45 with
      | some i => goTake base i
      | none => some base
    match step1 with
    | none => .panicked
    | some b1 =>
      let step2 : Option GoStr :=
        match indexByte vers 43 with
        | some i => goTake b1 i
        | none => some b1
      match step2 with
      | none => .panicked
      | some b2 =>
        match splitOnByte 46 b2 with
        | [ma, mi, pa] => .ok ma mi pa
        | _ => .err

/-! ## golang.org/x/mod/semver

Modelled from the semver package used by gorelease (parse, Major,
MajorMinor). Byte values: v=118, .=46, -=45, +=43, 0=48, 9=57. -/

/-- isIdentChar of x/mod/semver: ASCII letter, digit or `-`. -/
def isIdentChar (c : Nat) : Bool :=
  (65 ≤ c && c ≤ 90) || (97 ≤ c && c ≤ 122) || (48 ≤ c && c ≤ 57) || c = 45

/-- isBadNum of x/mod/semver: all digits, more than one, leading zero. -/
def isBadNum (v : GoStr) : Bool :=
  v.all (fun c => 48 ≤ c && c ≤ 57) && decide (1 < v.length) && v.head? = some 48

/-- Length of the leading run of decimal digits. -/
def countDigits : GoStr → Nat
  | [] => 0
  | c :: cs => if 48 ≤ c ∧ c ≤ 57 then countDigits cs + 1 else 0

/-- parseInt of x/mod/semver: a nonempty digit run without a leading
zero (unless it is exactly "0"), returning it and the rest. -/
def parseInt (v : GoStr) : Option (GoStr × GoStr) :=
  match v with
  | [] => none
  | c :: _ =>
    if c < 48 ∨ 57 < c then none
    else
      let i := countDigits v
      if c = 48 ∧ i ≠ 1 then none
      else some (v.take i, v.drop i)

/-- Split a byte list at the first `+` (byte 43), keeping the `+` with
the second part. -/
def takeUntilPlus : GoStr → GoStr × GoStr
  | [] => ([], [])
  | c :: cs =>
    if c = 43 then ([], c :: cs)
    else
      let p := takeUntilPlus cs
      (c :: p.1, p.2)

/-- parsePrerelease of x/mod/semver: `-` followed by nonempty dot-separated
identifier segments, none a numeric segment with a leading zero; stops at
the first `+`. -/
def parsePre (v : GoStr) : Option (GoStr × GoStr) :=
  match v with
  | 45 :: rest =>
    let p := takeUntilPlus rest
    if p.1.all (fun c => isIdentChar c || c = 46) &&
       (splitOnByte 46 p.1).all (fun seg => !seg.isEmpty && !isBadNum seg) then
      some (45 :: p.1, p.2)
    else none
  | _ => none

/-- parseBuild of x/mod/semver: `+` followed by nonempty dot-separated
identifier segments, running to the end of the string. -/
def parseBuild (v : GoStr) : Option (GoStr × GoStr) :=
  match v with
  | 43 :: rest =>
    if rest.all (fun c => isIdentChar c || c = 46) &&
       (splitOnByte 46 rest).all (fun seg => !seg.isEmpty) then
      some (43 :: rest, [])
    else none
  | _ => none

/-- The parsed fields of x/mod/semver's parse. -/
structure SemParsed where
  major : GoStr
  minor : GoStr
  patch : GoStr
  prerelease : GoStr
  build : GoStr
deriving DecidableEq, Repr

/-- parse of x/mod/semver; `none` when the version is invalid. -/
def semverParse (v : GoStr) : Option SemParsed :=
  match v with
  | 118 :: rest =>
    match parseInt rest with
    | none => none
    | some (major, r1) =>
      if r1 = [] then some ⟨major, strBytes "0", strBytes "0", [], []⟩
      else
        match r1 with
        | 46 :: r1a =>
          match parseInt r1a with
          | none => none
          | some (minor, r2) =>
            if r2 = [] then some ⟨major, minor, strBytes "0", [], []⟩
            else
              match r2 with
              | 46 :: r2a =>
                match parseInt r2a with
                | none => none
                | some (patch, r3) =>
                  match (match r3 with
                         | 45 :: _ => parsePre r3
                         | _ => some ([], r3)) with
                  | none => none
                  | some (pre, r4) =>
                    match (match r4 with
                           | 43 :: _ => parseBuild r4
                           | _ => some ([], r4)) with
                    | none => none
                    | some (bld, r5) =>
                      if r5 = [] then some ⟨major, minor, patch, pre, bld⟩
                      else none
              | _ => none
        | _ => none
  | _ => none

/-- semver.Major: `v` plus the major number, or "" if invalid. -/
def semverMajor (v : GoStr) : GoStr :=
  match semverParse v with
  | none => []
  | some p => v.take (1 + p.major.length)

/-- semver.MajorMinor: `vMAJOR.MINOR` prefix, or "" if invalid. -/
def semverMajorMinor (v : GoStr) : GoStr :=
  match semverParse v with
  | none => []
  | some p =>
    let i := 1 + p.major.length
    let j := i + 1 + p.minor.length
    if j ≤ v.length ∧ v.get? i = some 46 ∧ ((v.drop (i+1)).take p.minor.length) = p.minor then
      v.take j
    else v.take i ++ 46 :: p.minor

/-! ## golang.org/x/mod/module.SplitPathVersion

Modelled from the module package used by validateVersion. Bytes:
/=47, .=46, v=118, 0=48, 9=57. -/

/-- Length of the trailing run of digit-or-dot bytes, with whether a
dot occurred in it. -/
def trailNumDot : GoStr → Nat × Bool
  | [] => (0, false)
  | c :: cs =>
    let p := trailNumDot cs
    if p.1 = cs.length then
      if (48 ≤ c ∧ c ≤ 57) then (p.1 + 1, p.2)
      else if c = 46 then (p.1 + 1, true)
      else (p.1, p.2)
    else (p.1, p.2)

/-- splitGopkgIn of x/mod/module: gopkg.in paths must end in `.vN`
(approximate model of this special case of the external dependency;
no gorelease logic under verification reaches it with a gopkg.in path). -/
def splitGopkgIn (path : GoStr) : GoStr × GoStr × Bool :=
  let n := path.length
  let digits := countDigits path.reverse
  let i := n - digits
  if i ≤ 1 ∨ path.get? (i-1) ≠ some 118 ∨ path.get? (i-2) ≠ some 46 then
    (path, [], false)
  else
    let pathMajor := path.drop (i-2)
    if pathMajor.length ≤ 2 ∨
       (pathMajor.get? 2 = some 48 ∧ pathMajor ≠ strBytes ".v0") then
      (path, [], false)
    else (path.take (i-2), pathMajor, true)

/-- SplitPathVersion of x/mod/module: splits a module path into prefix
and major version suffix ("/vN", or ".vN" under gopkg.in). -/
def splitPathVersion (path : GoStr) : GoStr × GoStr × Bool :=
  if (strBytes "gopkg.in/").isPrefixOf path then splitGopkgIn path
  else
    let n := path.length
    let p := trailNumDot path
    let i := n - p.1
    if i ≤ 1 ∨ i = n ∨ path.get? (i-1) ≠ some 118 ∨ path.get? (i-2) ≠ some 47 then
      (path, [], true)
    else
      let pathMajor := path.drop (i-2)
      if p.2 ∨ pathMajor.length ≤ 2 ∨ pathMajor.get? 2 = some 48 ∨
         pathMajor = strBytes "/v1" then
        (path, [], false)
      else (path.take (i-2), pathMajor, true)

/-! ## Report model (gorelease.go) -/

/-- apidiff.Change: a message and a compatibility flag. -/
structure Change where
  message : GoStr
  compatible : Bool
deriving DecidableEq, Repr

/-- packages.Error, reduced to its message (only presence and identity
of errors matter to the report logic). -/
abbrev PkgError := GoStr

/-- PackageReport: the changes of apidiff.Report plus the package path
and the load/type-check errors of the old and new snapshot. -/
structure PackageReport where
  path : GoStr
  changes : List Change
  oldErrors : List PkgError
  newErrors : List PkgError
deriving DecidableEq, Repr

/-- The report struct of gorelease.go. -/
structure Report where
  modulePath : GoStr
  baseVersion : GoStr
  releaseVersion : GoStr
  tagPref : GoStr
  packages : List PackageReport
  diagnostics : List GoStr
  haveCompatibleChanges : Bool
  haveIncompatibleChanges : Bool
  haveErrors : Bool
deriving DecidableEq, Repr

/-- addPackage appends the package report and updates the three flags;
note the Go code inspects only `p.Changes` and `p.NewErrors`:

  r.packages = append(r.packages, p)
  for _, c := range p.Changes {
    if c.Compatible { r.haveCompatibleChanges = true }
    else { r.haveIncompatibleChanges = true }
  }
  if len(p.NewErrors) > 0 { r.haveErrors = true }
-/
def addPackage (r : Report) (p : PackageReport) : Report :=
  { r with
    packages := r.packages ++ [p]
    haveCompatibleChanges :=
      r.haveCompatibleChanges || p.changes.any (fun c => c.compatible)
    haveIncompatibleChanges :=
      r.haveIncompatibleChanges || p.changes.any (fun c => !c.compatible)
    haveErrors := r.haveErrors || !p.newErrors.isEmpty }

/-- Version string assembled by fmt.Sprintf("v%s.%s.%s", ...). -/
def mkVersion (ma mi pa : GoStr) : GoStr :=
  118 :: (ma ++ 46 :: mi ++ 46 :: pa)

/-- suggestVersion suggests a new version consistent with observed
changes (gorelease.go). The Go method panics when splitVersionNumbers
fails on the base version or when incDecimal panics; both are `none`. -/
def suggestVersion (r : Report) : Option GoStr :=
  match splitVersionNumbers r.baseVersion with
  | .ok major minor patch =>
    if r.haveIncompatibleChanges && major ≠ strBytes "0" then
      (incDecimal major).map (fun ma => mkVersion ma (strBytes "0") (strBytes "0"))
    else if r.haveCompatibleChanges || (r.haveIncompatibleChanges && major = strBytes "0") then
      (incDecimal minor).map (fun mi => mkVersion major mi (strBytes "0"))
    else
      (incDecimal patch).map (fun pa => mkVersion major minor pa)
  | _ => none

/-! ## validateVersion / isSuccessful / Text (gorelease.go) -/

/-- The distinct error returns of validateVersion, in source order. Each
constructor stands for the distinct error value (message) built at one
return site; the message text itself is not modelled. -/
inductive VErr where
  | errorsFound
  | noVersionSuffixSplit
  | unknownSuffix
  | majorSuffixMismatch
  | missingSuffixForMajor
  | incompatibleChanges
  | compatibleSameMajorMinor
deriving DecidableEq, Repr

/-- Outcome of validateVersion: the Go method panics when
r.releaseVersion is empty, returns an error, or returns nil (`ok`). -/
inductive VResult where
  | panicked : VResult
  | err (e : VErr) : VResult
  | ok : VResult
deriving DecidableEq, Repr

/-- The major-version-suffix checks of validateVersion (the block after
the haveErrors check and before the change-consistency checks). Returns
the error hit, if any. Bytes: /=47, .=46. -/
def checkSuffix (r : Report) : Option VErr :=
  match splitPathVersion r.modulePath with
  | (_, _, false) => some .noVersionSuffixSplit
  | (_, suffix, true) =>
    match suffix with
    | [] =>
      let major := semverMajor r.releaseVersion
      if major ≠ strBytes "v0" ∧ major ≠ strBytes "v1" then
        some .missingSuffixForMajor
      else none
    | c :: pathMajor =>
      if c ≠ 47 ∧ c ≠ 46 then some .unknownSuffix
      else if pathMajor ≠ semverMajor r.releaseVersion then
        some .majorSuffixMismatch
      else none

/-- The change-consistency checks at the end of validateVersion:

  if semver.Major(r.baseVersion) == "v0" { return nil }
  if r.haveIncompatibleChanges { return error }
  if r.haveCompatibleChanges &&
     semver.MajorMinor(r.baseVersion) == semver.MajorMinor(r.releaseVersion) { return error }
  return nil
-/
def checkChanges (r : Report) : VResult :=
  if semverMajor r.baseVersion = strBytes "v0" then .ok
  else if r.haveIncompatibleChanges then .err .incompatibleChanges
  else if r.haveCompatibleChanges ∧
          semverMajorMinor r.baseVersion = semverMajorMinor r.releaseVersion then
    .err .compatibleSameMajorMinor
  else .ok

/-- validateVersion checks whether r.releaseVersion is valid
(gorelease.go): panic on an empty release version; error if haveErrors;
then the major-version-suffix checks (checkSuffix); then the
change-consistency checks (checkChanges). -/
def validateVersion (r : Report) : VResult :=
  if r.releaseVersion = [] then .panicked
  else if r.haveErrors then .err .errorsFound
  else
    match checkSuffix r with
    | some e => .err e
    | none => checkChanges r

/-- isSuccessful (gorelease.go); `none` would mean a panic escaped from
validateVersion:

  if r.haveErrors || len(r.diagnostics) > 0 { return false }
  if r.releaseVersion != "" { return r.validateVersion() == nil }
  return !r.haveIncompatibleChanges || semver.Major(r.baseVersion) == "v0"
-/
def isSuccessful (r : Report) : Option Bool :=
  if r.haveErrors || !r.diagnostics.isEmpty then some false
  else if r.releaseVersion ≠ [] then
    match validateVersion r with
    | .panicked => none
    | .ok => some true
    | .err _ => some false
  else some (!r.haveIncompatibleChanges || semverMajor r.baseVersion = strBytes "v0")

/-- The summary branch taken by report.Text (gorelease.go), with the
data each branch formats; the final fmt.Sprintf layout is not modelled.
`panicValidate` / `panicSuggest` mark a panic escaping from
validateVersion / suggestVersion inside Text. -/
inductive Summary where
  | panicValidate
  | panicSuggest
  | diags (ds : List GoStr)
  | invalid (e : VErr)
  | valid (tag rel : GoStr)
  | errorsNoSuggestion
  | incompatibleSuggest (v : GoStr)
  | suggest (tag v : GoStr)
deriving DecidableEq, Repr

/-- The summary computation of report.Text (gorelease.go):

  if len(r.diagnostics) > 0 { summary = join(diagnostics) }
  else if r.releaseVersion != "" {
    if err := r.validateVersion(); err != nil { summary = err.Error() }
    else { summary = "...valid semantic version..." }
  } else if r.haveErrors { summary = "Errors were detected..." }
  else if r.haveIncompatibleChanges && r.baseVersion != "" &&
          semver.Major(r.baseVersion) != "v0" {
    summary = "...Use -release=<suggestVersion()>..." }
  else { summary = "Suggested version: <suggestVersion()>" }
-/
def textSummary (r : Report) : Summary :=
  if r.diagnostics ≠ [] then .diags r.diagnostics
  else if r.releaseVersion ≠ [] then
    match validateVersion r with
    | .panicked => .panicValidate
    | .err e => .invalid e
    | .ok => .valid r.tagPref r.releaseVersion
  else if r.haveErrors then .errorsNoSuggestion
  else if r.haveIncompatibleChanges && r.baseVersion ≠ [] &&
          semverMajor r.baseVersion ≠ strBytes "v0" then
    match suggestVersion r with
    | none => .panicSuggest
    | some v => .incompatibleSuggest v
  else
    match suggestVersion r with
    | none => .panicSuggest
    | some v => .suggest r.tagPref v

/-! ## Go path package (Base, Dir) and isInternal (gorelease.go)

goPathBase / goPathDir model Go's path.Base and path.Dir for cleaned,
slash-separated, non-rooted paths without trailing slashes — the only
shape of package and module paths gorelease feeds them. Byte 47 = `/`,
byte 46 = `.`. -/

/-- Split on `/` (strings.Split semantics: n+1 groups for n slashes). -/
def splitSlash (p : GoStr) : List GoStr := splitOnByte 47 p

/-- Join with `/` (inverse of splitSlash on nonempty group lists). -/
def joinSlash : List GoStr → GoStr
  | [] => []
  | [x] => x
  | x :: xs => x ++ 47 :: joinSlash xs

/-- path.Base for cleaned slash-separated paths: the last element;
"." for the empty path. -/
def goPathBase (p : GoStr) : GoStr :=
  if p = [] then strBytes "." else (splitSlash p).getLastD []

/-- path.Dir for cleaned slash-separated paths: everything before the
last element, "." when there is no slash. -/
def goPathDir (p : GoStr) : GoStr :=
  match (splitSlash p).dropLast with
  | [] => strBytes "."
  | parts => joinSlash parts

/-- The loop body of the isInternal closure of makeReleaseReport:

  for pkgPath != modPath {
    if path.Base(pkgPath) == "internal" { return true }
    pkgPath = path.Dir(pkgPath)
  }
  return false

The loop terminates in Go because the closure panics first unless
modPath is a path prefix of pkgPath (str.HasPathPrefix); each Dir step
then strictly shortens the path until it reaches modPath, so
`pkgPath.length + 1` rounds of fuel always suffice. -/
def isInternalFuel (modPath : GoStr) : GoStr → Nat → Bool
  | _, 0 => false
  | p, fuel+1 =>
    if p = modPath then false
    else if goPathBase p = strBytes "internal" then true
    else isInternalFuel modPath (goPathDir p) fuel

/-- The isInternal closure of makeReleaseReport: does the package path
have an "internal" element strictly below the module root? -/
def isInternal (modPath p : GoStr) : Bool :=
  isInternalFuel modPath p (p.length + 1)

/-! ## The package merge loop of makeReleaseReport (gorelease.go)

The loop walks the two path-sorted package lists with two indices.
types.Package values are opaque to the loop; they are a type parameter
`α` here, and apidiff.Changes is an arbitrary function
`apid : α → α → List Change`. -/

/-- A loaded package as the loop sees it: its path, its load/type-check
errors, and its type information. -/
structure Pkg (α : Type) where
  pkgPath : GoStr
  errors : List PkgError
  types : α
deriving Repr

/-- The old-only branch of the loop:

  if !isInternal(oldPkg.PkgPath) || len(oldPkg.Errors) > 0 {
    pr := PackageReport{Path, OldErrors: oldPkg.Errors}
    if !isInternal(oldPkg.PkgPath) {
      pr.Report = {Changes: [{"package removed", Compatible: false}]}
    }
    r.addPackage(pr)
  }
-/
def oldOnlyReports {α : Type} (isInt : GoStr → Bool) (o : Pkg α) : List PackageReport :=
  if !isInt o.pkgPath || !o.errors.isEmpty then
    [{ path := o.pkgPath
       changes := if !isInt o.pkgPath then [⟨strBytes "package removed", false⟩] else []
       oldErrors := o.errors
       newErrors := [] }]
  else []

/-- The new-only branch of the loop:

  if isInternal(newPkg.PkgPath) && len(newPkg.Errors) == 0 && !shouldCompare { continue }
  pr := PackageReport{Path, NewErrors: newPkg.Errors}
  if !isInternal(newPkg.PkgPath) && shouldCompare {
    pr.Report = {Changes: [{"package added", Compatible: true}]}
  }
  r.addPackage(pr)
-/
def newOnlyReports {α : Type} (isInt : GoStr → Bool) (shouldCompare : Bool)
    (n : Pkg α) : List PackageReport :=
  if isInt n.pkgPath && n.errors.isEmpty && !shouldCompare then []
  else
    [{ path := n.pkgPath
       changes := if !isInt n.pkgPath && shouldCompare then [⟨strBytes "package added", true⟩] else []
       oldErrors := []
       newErrors := n.errors }]

/-- The both-present branch of the loop:

  if !isInternal(oldPkg.PkgPath) {
    pr := PackageReport{Path, OldErrors: oldPkg.Errors, NewErrors: newPkg.Errors}
    if len(oldPkg.Errors) == 0 && len(newPkg.Errors) == 0 {
      pr.Report = apidiff.Changes(oldPkg.Types, newPkg.Types)
    }
    r.addPackage(pr)
  }
-/
def bothReports {α : Type} (apid : α → α → List Change) (isInt : GoStr → Bool)
    (o n : Pkg α) : List PackageReport :=
  if !isInt o.pkgPath then
    [{ path := o.pkgPath
       changes := if o.errors.isEmpty && n.errors.isEmpty then apid o.types n.types else []
       oldErrors := o.errors
       newErrors := n.errors }]
  else []

/-- The merge loop of makeReleaseReport with an explicit iteration
bound (`fuel`), returning the sequence of package reports passed to
addPackage, in order. Branch guards follow the source: the old branch
fires when the old path is smaller (or new is exhausted), the new
branch when the new path is smaller (or old is exhausted), the both
branch otherwise. Each Go loop iteration consumes at least one list
element, so fuel equal to the total number of elements always reaches
the end of both lists (mergeFuel_drain below). -/
def mergeFuel {α : Type} (apid : α → α → List Change) (isInt : GoStr → Bool)
    (shouldCompare : Bool) : Nat → List (Pkg α) → List (Pkg α) → List PackageReport
  | 0, _, _ => []
  | _ + 1, [], [] => []
  | fuel + 1, o :: os, [] =>
    oldOnlyReports isInt o ++ mergeFuel apid isInt shouldCompare fuel os []
  | fuel + 1, [], n :: ns =>
    newOnlyReports isInt shouldCompare n ++ mergeFuel apid isInt shouldCompare fuel [] ns
  | fuel + 1, o :: os, n :: ns =>
    if goStrLt o.pkgPath n.pkgPath then
      oldOnlyReports isInt o ++ mergeFuel apid isInt shouldCompare fuel os (n :: ns)
    else if goStrLt n.pkgPath o.pkgPath then
      newOnlyReports isInt shouldCompare n ++ mergeFuel apid isInt shouldCompare fuel (o :: os) ns
    else
      bothReports apid isInt o n ++ mergeFuel apid isInt shouldCompare fuel os ns

/-- The merge loop of makeReleaseReport: run mergeFuel with enough fuel
for every iteration of the Go loop. -/
def mergePkgs {α : Type} (apid : α → α → List Change) (isInt : GoStr → Bool)
    (shouldCompare : Bool) (oldPkgs newPkgs : List (Pkg α)) : List PackageReport :=
  mergeFuel apid isInt shouldCompare (oldPkgs.length + newPkgs.length) oldPkgs newPkgs

/-- The fresh report makeReleaseReport starts from (all flags false, no
packages). -/
def initReport (modPath baseVersion releaseVersion tagPref : GoStr)
    (diagnostics : List GoStr) : Report :=
  { modulePath := modPath
    baseVersion := baseVersion
    releaseVersion := releaseVersion
    tagPref := tagPref
    packages := []
    diagnostics := diagnostics
    haveCompatibleChanges := false
    haveIncompatibleChanges := false
    haveErrors := false }

/-- The comparison phase of makeReleaseReport: start from the fresh
report and addPackage each report produced by the merge loop, with
isInternal instantiated at the module path. -/
def makeReleaseReportLoop {α : Type} (apid : α → α → List Change)
    (modPath baseVersion releaseVersion tagPref : GoStr)
    (diagnostics : List GoStr) (shouldCompare : Bool)
    (oldPkgs newPkgs : List (Pkg α)) : Report :=
  (mergePkgs apid (isInternal modPath) shouldCompare oldPkgs newPkgs).foldl
    addPackage (initReport modPath baseVersion releaseVersion tagPref diagnostics)

/-! ## Specification-side helper notions

Definitions below are not translations of Go code; they state the
properties the claims talk about (decimal value of a digit string,
sortedness, the claims' version/suffix conditions) and are related to
the code's functions by the theorems. -/

/-- An ASCII decimal digit byte. -/
def isDigitByte (b : Nat) : Bool := 48 ≤ b && b ≤ 57

/-- Every byte is an ASCII decimal digit. -/
def allDigits (s : GoStr) : Bool := s.all isDigitByte

/-- Value of a digit byte list given least-significant first. -/
def valRev : GoStr → Nat
  | [] => 0
  | d :: ds => (d - 48) + 10 * valRev ds

/-- The natural number an ASCII digit string represents. -/
def digitsVal (s : GoStr) : Nat := valRev s.reverse

/-- A canonical decimal representation: nonempty digits, no leading
zero except for "0" itself. -/
def canonDigits (s : GoStr) : Bool :=
  allDigits s && !s.isEmpty && (s.head? ≠ some 48 || s = [48])

/-- Packages strictly sorted by path (how makeReleaseReport's inputs
arrive: sorted with Go string `<`, paths unique per snapshot). -/
def pkgsSorted {α : Type} (l : List (Pkg α)) : Prop :=
  List.Pairwise (fun a b => goStrLt a.pkgPath b.pkgPath = true) l

/-- Package reports strictly increasing by path. -/
def reportsSorted (l : List PackageReport) : Prop :=
  List.Pairwise (fun a b => goStrLt a.path b.path = true) l

/-- The claim's release/module-path condition for validateVersion: the
release version's major component matches the module path's
major-version suffix convention (no suffix only for majors v0 and v1;
a present suffix must match the major). -/
def releaseMatchesSuffix (r : Report) : Bool :=
  match splitPathVersion r.modulePath with
  | (_, [], true) =>
    semverMajor r.releaseVersion == strBytes "v0" ||
    semverMajor r.releaseVersion == strBytes "v1"
  | (_, c :: pm, true) =>
    (c == 47 || c == 46) && pm == semverMajor r.releaseVersion
  | (_, _, false) => false

/-- A report with the given module path, versions and flags and nothing
else (no packages, no diagnostics, empty tag prefix); used to state the
claims' concrete scenarios. -/
def mkReport (mp bv rv : GoStr) (c i e : Bool) : Report :=
  { modulePath := mp
    baseVersion := bv
    releaseVersion := rv
    tagPref := []
    packages := []
    diagnostics := []
    haveCompatibleChanges := c
    haveIncompatibleChanges := i
    haveErrors := e }

/-- The package of a snapshot with the given path, if any. -/
def findPkg {α : Type} (l : List (Pkg α)) (p : GoStr) : Option (Pkg α) :=
  l.find? (fun x => x.pkgPath == p)

/-- Specification of what the merge loop produces for one package path:
the branch's reports for the packages of that path in the two
snapshots. The theorems below prove that filtering the loop's output to
one path yields exactly this. -/
def mergeSpec {α : Type} (apid : α → α → List Change) (isInt : GoStr → Bool)
    (shouldCompare : Bool) (oldPkgs newPkgs : List (Pkg α)) (p : GoStr) :
    List PackageReport :=
  match findPkg oldPkgs p, findPkg newPkgs p with
  | some o, some n => bothReports apid isInt o n
  | some o, none => oldOnlyReports isInt o
  | none, some n => newOnlyReports isInt shouldCompare n
  | none, none => []

/-! ## Theorems: incDecimal -/

theorem incScanRev_cons57 (ds : GoStr) :
    incScanRev (57 :: ds) = (48 :: (incScanRev ds).1, (incScanRev ds).2) := by
  simp [incScanRev]

theorem incScanRev_consNe (d : Nat) (ds : GoStr) (h : d ≠ 57) :
    incScanRev (d :: ds) = ((d + 1) % 256 :: ds, false) := by
  simp [incScanRev, h]

theorem incDecimal_cons (c : Nat) (cs : GoStr) :
    incDecimal (c :: cs) =
      (if (incScanRev (c :: cs).reverse).2 then
         some (((incScanRev (c :: cs).reverse).1.reverse.set 0 49) ++ [48])
       else some (incScanRev (c :: cs).reverse).1.reverse) :=
  rfl

theorem incScanRev_len (l : GoStr) : (incScanRev l).1.length = l.length := by
  induction l with
  | nil => simp [incScanRev]
  | cons d ds ih =>
    by_cases h : d = 57
    · subst h
      rw [incScanRev_cons57]
      simpa using ih
    · rw [incScanRev_consNe d ds h]
      simp

theorem incScanRev_carry (l : GoStr) (h : (incScanRev l).2 = true) :
    l = List.replicate l.length 57 ∧ (incScanRev l).1 = List.replicate l.length 48 := by
  induction l with
  | nil => simp [incScanRev]
  | cons d ds ih =>
    by_cases hd : d = 57
    · subst hd
      rw [incScanRev_cons57] at h ⊢
      obtain ⟨h1, h2⟩ := ih h
      constructor
      · rw [List.length_cons, List.replicate_succ]
        exact congrArg _ h1
      · rw [List.length_cons, List.replicate_succ]
        simpa using h2
    · rw [incScanRev_consNe d ds hd] at h
      simp at h

theorem incScanRev_noCarry (l : GoStr) (hdig : ∀ b ∈ l, isDigitByte b = true)
    (h : (incScanRev l).2 = false) :
    valRev (incScanRev l).1 = valRev l + 1 ∧
    (∀ b ∈ (incScanRev l).1, isDigitByte b = true) := by
  induction l with
  | nil => simp [incScanRev] at h
  | cons d ds ih =>
    by_cases hd : d = 57
    · subst hd
      rw [incScanRev_cons57] at h ⊢
      have hds : ∀ b ∈ ds, isDigitByte b = true := fun b hb => hdig b (List.mem_cons_of_mem _ hb)
      obtain ⟨h1, h2⟩ := ih hds h
      refine ⟨?_, ?_⟩
      · simp only [valRev, h1]
        omega
      · intro b hb
        rcases List.mem_cons.mp hb with hb | hb
        · subst hb; decide
        · exact h2 b hb
    · have hd8 : isDigitByte d = true := hdig d (List.mem_cons_self d ds)
      simp only [isDigitByte, Bool.and_eq_true, decide_eq_true_eq] at hd8
      have hlt : d + 1 < 256 := by omega
      rw [incScanRev_consNe d ds hd]
      refine ⟨?_, ?_⟩
      · simp only [valRev, Nat.mod_eq_of_lt hlt]
        omega
      · intro b hb
        rcases List.mem_cons.mp hb with hb | hb
        · subst hb
          simp only [isDigitByte, Bool.and_eq_true, decide_eq_true_eq, Nat.mod_eq_of_lt hlt]
          omega
        · exact hdig b (List.mem_cons_of_mem _ hb)

theorem incScanRev_getLast (l : GoStr) (h : (incScanRev l).2 = false) :
    (incScanRev l).1.getLast? = l.getLast? ∨
    ∃ d, d ≠ 57 ∧ l.getLast? = some d ∧ (incScanRev l).1.getLast? = some ((d + 1) % 256) := by
  induction l with
  | nil => simp [incScanRev] at h
  | cons d ds ih =>
    by_cases hd : d = 57
    · subst hd
      rw [incScanRev_cons57] at h ⊢
      have hne : ds ≠ [] := by
        intro he
        rw [he] at h
        simp [incScanRev] at h
      obtain ⟨e, es, he⟩ := List.exists_cons_of_ne_nil hne
      have hlen : (incScanRev ds).1.length = ds.length := incScanRev_len ds
      obtain ⟨f, fs, hf⟩ : ∃ f fs, (incScanRev ds).1 = f :: fs := by
        rcases hfst : (incScanRev ds).1 with _ | ⟨f, fs⟩
        · rw [hfst] at hlen
          rw [he] at hlen
          simp at hlen
        · exact ⟨f, fs, rfl⟩
      rw [hf, List.getLast?_cons_cons, ← hf, he, List.getLast?_cons_cons, ← he]
      exact ih h
    · rw [incScanRev_consNe d ds hd]
      rcases ds with _ | ⟨e, es⟩
      · right
        exact ⟨d, hd, rfl, rfl⟩
      · left
        rw [List.getLast?_cons_cons, List.getLast?_cons_cons]

theorem valRev_replicate57 (n : Nat) : valRev (List.replicate n 57) = 10 ^ n - 1 := by
  induction n with
  | zero => simp [valRev]
  | succ m ih =>
    rw [List.replicate_succ]
    simp only [valRev, ih]
    have h1 : 1 ≤ 10 ^ m := Nat.one_le_pow _ _ (by omega)
    rw [pow_succ]
    omega

theorem valRev_rep48_app49 (n : Nat) : valRev (List.replicate n 48 ++ [49]) = 10 ^ n := by
  induction n with
  | zero => simp [valRev]
  | succ m ih =>
    rw [List.replicate_succ, List.cons_append]
    simp only [valRev]
    rw [ih, pow_succ]
    omega

/-- Main behaviour of incDecimal on nonempty digit strings: it returns
the digit string whose value is one greater, and its leading byte is
not `0` when the input's is not (or the input is exactly "0"). -/
theorem incDecimal_spec (s : GoStr) (hne : s ≠ []) (hdig : allDigits s = true) :
    ∃ t, incDecimal s = some t ∧ allDigits t = true ∧
      digitsVal t = digitsVal s + 1 ∧ t ≠ [] ∧
      ((s.head? ≠ some 48 ∨ s = [48]) → t.head? ≠ some 48) := by
  by_cases h48 : s = [48]
  · subst h48
    refine ⟨[49], by decide, by decide, by decide, by decide, fun _ => by decide⟩
  have hdig' : ∀ b ∈ s, isDigitByte b = true := fun b hb => List.all_eq_true.mp hdig b hb
  have hdrev : ∀ b ∈ s.reverse, isDigitByte b = true := fun b hb =>
    hdig' b (List.mem_reverse.mp hb)
  rcases s with _ | ⟨c, cs⟩
  · exact absurd rfl hne
  rcases hcarry : (incScanRev (c :: cs).reverse).2 with _ | _
  · -- no carry
    obtain ⟨hval, hdig2⟩ := incScanRev_noCarry _ hdrev hcarry
    refine ⟨(incScanRev (c :: cs).reverse).1.reverse, ?_, ?_, ?_, ?_, ?_⟩
    · rw [incDecimal_cons, hcarry]
      simp
    · simp only [allDigits, List.all_eq_true]
      intro b hb
      exact hdig2 b (List.mem_reverse.mp hb)
    · simp only [digitsVal, List.reverse_reverse, hval]
    · intro he
      have hl := incScanRev_len (c :: cs).reverse
      rw [← List.reverse_reverse (incScanRev (c :: cs).reverse).1, he] at hl
      simp at hl
    · intro hcanon
      have hchead : (c :: cs).head? ≠ some 48 := by
        rcases hcanon with h1 | h1
        · exact h1
        · exact absurd h1 h48
      rcases incScanRev_getLast _ hcarry with hl | ⟨d, hd57, hdl, hdr⟩
      · rw [List.head?_reverse, hl, List.getLast?_reverse]
        exact hchead
      · rw [List.head?_reverse, hdr]
        rw [List.getLast?_reverse] at hdl
        intro hcon
        have h1 := Option.some.inj hcon
        have h2 : c = d := by
          rw [List.head?_cons] at hdl
          exact Option.some.inj hdl
        have h3 : isDigitByte c = true := hdig' c (List.mem_cons_self c cs)
        simp only [isDigitByte, Bool.and_eq_true, decide_eq_true_eq] at h3
        subst h2
        rw [Nat.mod_eq_of_lt (by omega)] at h1
        have : c ≠ 48 := by
          intro hc
          rw [hc] at hchead
          exact hchead (by rw [List.head?_cons])
        omega
  · -- carry: all nines
    obtain ⟨hall, hfst⟩ := incScanRev_carry _ hcarry
    set n := (c :: cs).reverse.length with hn
    have hnpos : 0 < n := by simp [hn]
    have hs57 : (c :: cs) = List.replicate n 57 := by
      have h1 := congrArg List.reverse hall
      rw [List.reverse_reverse, List.reverse_replicate] at h1
      exact h1
    have hset : ((incScanRev (c :: cs).reverse).1.reverse.set 0 49) ++ [48] =
        49 :: List.replicate n 48 := by
      rw [hfst, List.reverse_replicate]
      rcases n with _ | m
      · omega
      · rw [List.replicate_succ, List.set_cons_zero, List.cons_append,
          ← List.replicate_succ', List.replicate_succ]
    refine ⟨49 :: List.replicate n 48, ?_, ?_, ?_, ?_, ?_⟩
    · rw [incDecimal_cons, hcarry]
      simp only [if_pos]
      rw [hset]
    · simp only [allDigits, List.all_eq_true]
      intro b hb
      rcases List.mem_cons.mp hb with hb | hb
      · subst hb; decide
      · rw [List.eq_of_mem_replicate hb]; decide
    · have h1 : digitsVal (49 :: List.replicate n 48) = 10 ^ n := by
        simp only [digitsVal, List.reverse_cons, List.reverse_replicate]
        exact valRev_rep48_app49 n
      have h2 : digitsVal (c :: cs) = 10 ^ n - 1 := by
        rw [hs57]
        simp only [digitsVal, List.reverse_replicate]
        exact valRev_replicate57 n
      have h3 : 1 ≤ 10 ^ n := Nat.one_le_pow _ _ (by omega)
      rw [h1, h2]
      omega
    · simp
    · intro _
      simp

/-- Claim C7: incDecimal performs a string-level increment with carry on
every nonempty ASCII digit string: the result is the digit string whose
value is the input's value plus one (canonical when the input is); in
particular "9" becomes "10", "99" becomes "100" and "0" becomes "1". -/
theorem claim_C7 :
    (∀ s : GoStr, s ≠ [] → allDigits s = true →
      ∃ t, incDecimal s = some t ∧ allDigits t = true ∧
        digitsVal t = digitsVal s + 1 ∧
        (canonDigits s = true → canonDigits t = true)) ∧
    incDecimal (strBytes "9") = some (strBytes "10") ∧
    incDecimal (strBytes "99") = some (strBytes "100") ∧
    incDecimal (strBytes "0") = some (strBytes "1") := by
  refine ⟨?_, by decide, by decide, by decide⟩
  intro s hne hdig
  obtain ⟨t, h1, h2, h3, h4, h5⟩ := incDecimal_spec s hne hdig
  refine ⟨t, h1, h2, h3, ?_⟩
  intro hcanon
  simp only [canonDigits, Bool.and_eq_true, Bool.or_eq_true, Bool.not_eq_true',
    List.isEmpty_eq_false, decide_eq_true_eq] at hcanon ⊢
  obtain ⟨⟨hca, hcb⟩, hcc⟩ := hcanon
  have hh : t.head? ≠ some 48 := by
    apply h5
    rcases hcc with h | h
    · exact Or.inl h
    · exact Or.inr h
  exact ⟨⟨h2, h4⟩, Or.inl hh⟩

/-- Claim C7 witness: the general statement applied at the concrete
input "129". -/
theorem claim_C7_wit :
    ∃ t, incDecimal (strBytes "129") = some t ∧ allDigits t = true ∧
      digitsVal t = digitsVal (strBytes "129") + 1 ∧
      (canonDigits (strBytes "129") = true → canonDigits t = true) :=
  claim_C7.1 (strBytes "129") (by decide) (by decide)

/-! ## Theorems: the report flags (addPackage) and isSuccessful -/

theorem foldl_addPackage_packages (ps : List PackageReport) (init : Report) :
    (ps.foldl addPackage init).packages = init.packages ++ ps := by
  induction ps generalizing init with
  | nil => simp
  | cons p ps ih =>
    rw [List.foldl_cons, ih]
    simp [addPackage]

theorem foldl_addPackage_compat (ps : List PackageReport) (init : Report) :
    (ps.foldl addPackage init).haveCompatibleChanges =
      (init.haveCompatibleChanges || ps.any (fun p => p.changes.any (fun c => c.compatible))) := by
  induction ps generalizing init with
  | nil => simp
  | cons p ps ih =>
    rw [List.foldl_cons, ih]
    simp [addPackage, Bool.or_assoc]

theorem foldl_addPackage_incompat (ps : List PackageReport) (init : Report) :
    (ps.foldl addPackage init).haveIncompatibleChanges =
      (init.haveIncompatibleChanges || ps.any (fun p => p.changes.any (fun c => !c.compatible))) := by
  induction ps generalizing init with
  | nil => simp
  | cons p ps ih =>
    rw [List.foldl_cons, ih]
    simp [addPackage, Bool.or_assoc]

theorem foldl_addPackage_errors (ps : List PackageReport) (init : Report) :
    (ps.foldl addPackage init).haveErrors =
      (init.haveErrors || ps.any (fun p => !p.newErrors.isEmpty)) := by
  induction ps generalizing init with
  | nil => simp
  | cons p ps ih =>
    rw [List.foldl_cons, ih]
    simp [addPackage, Bool.or_assoc]

/-- Claim C3 (amended): after any sequence of addPackage calls the
error flag is set exactly when some added package has a nonempty
NewErrors list — OldErrors alone never set it — and whenever the error
flag is set or a diagnostic was recorded, isSuccessful returns false. -/
theorem claim_C3 :
    (∀ (init : Report) (ps : List PackageReport),
      (ps.foldl addPackage init).haveErrors =
        (init.haveErrors || ps.any (fun p => !p.newErrors.isEmpty))) ∧
    (∀ r : Report, r.haveErrors = true ∨ r.diagnostics ≠ [] → isSuccessful r = some false) := by
  refine ⟨fun init ps => foldl_addPackage_errors ps init, ?_⟩
  intro r h
  rcases h with h | h
  · simp [isSuccessful, h]
  · have hd : r.diagnostics.isEmpty = false := List.isEmpty_eq_false.mpr h
    simp [isSuccessful, hd]

/-- Claim C3 witness: the flag equation at a one-package sequence with
new-snapshot errors, and isSuccessful on a report with the flag set. -/
theorem claim_C3_wit :
    (([⟨strBytes "example.com/m/p", [], [], [strBytes "does not compile"]⟩] :
        List PackageReport).foldl addPackage
          (initReport (strBytes "example.com/m") (strBytes "v1.2.3") [] [] [])).haveErrors =
      ((initReport (strBytes "example.com/m") (strBytes "v1.2.3") [] [] []).haveErrors ||
        ([⟨strBytes "example.com/m/p", [], [], [strBytes "does not compile"]⟩] :
          List PackageReport).any (fun p => !p.newErrors.isEmpty)) ∧
    isSuccessful (mkReport (strBytes "example.com/m") (strBytes "v1.2.3") [] false false true) =
      some false :=
  ⟨claim_C3.1 _ _, claim_C3.2 _ (Or.inl rfl)⟩

/-- Claim C3 counterexample: a package report whose OldErrors list is
nonempty (and NewErrors empty) does not set the report's error flag,
and isSuccessful still returns true — the claim says both should flip. -/
theorem claim_C3_cex :
    (⟨strBytes "example.com/m/p", [], [strBytes "does not compile"], []⟩ :
        PackageReport).oldErrors ≠ [] ∧
    (addPackage (mkReport (strBytes "example.com/m") (strBytes "v1.2.3") [] false false false)
        ⟨strBytes "example.com/m/p", [], [strBytes "does not compile"], []⟩).haveErrors = false ∧
    isSuccessful
        (addPackage (mkReport (strBytes "example.com/m") (strBytes "v1.2.3") [] false false false)
          ⟨strBytes "example.com/m/p", [], [strBytes "does not compile"], []⟩) =
      some true := by
  refine ⟨by decide, by decide, by decide⟩

/-- Claim C8: addPackage appends exactly one package report and updates
the flags from the new package alone; consequently, starting from a
fresh report, the compatible/incompatible flags hold exactly when some
added package report contains a compatible/incompatible change. -/
theorem claim_C8 :
    (∀ (r : Report) (p : PackageReport),
      (addPackage r p).packages = r.packages ++ [p] ∧
      (addPackage r p).haveCompatibleChanges =
        (r.haveCompatibleChanges || p.changes.any (fun c => c.compatible)) ∧
      (addPackage r p).haveIncompatibleChanges =
        (r.haveIncompatibleChanges || p.changes.any (fun c => !c.compatible))) ∧
    (∀ (mp bv rv tp : GoStr) (ds : List GoStr) (ps : List PackageReport),
      (ps.foldl addPackage (initReport mp bv rv tp ds)).packages = ps ∧
      ((ps.foldl addPackage (initReport mp bv rv tp ds)).haveCompatibleChanges = true ↔
        ∃ p ∈ ps, ∃ c ∈ p.changes, c.compatible = true) ∧
      ((ps.foldl addPackage (initReport mp bv rv tp ds)).haveIncompatibleChanges = true ↔
        ∃ p ∈ ps, ∃ c ∈ p.changes, c.compatible = false)) := by
  refine ⟨fun r p => ⟨rfl, rfl, rfl⟩, ?_⟩
  intro mp bv rv tp ds ps
  refine ⟨?_, ?_, ?_⟩
  · rw [foldl_addPackage_packages]
    simp [initReport]
  · rw [foldl_addPackage_compat]
    simp [initReport, List.any_eq_true]
  · rw [foldl_addPackage_incompat]
    simp [initReport, List.any_eq_true]

/-- Claim C8 witness: the fresh-report flag characterization at a
concrete one-package sequence containing one incompatible change. -/
theorem claim_C8_wit :
    (([⟨strBytes "example.com/m/p", [⟨strBytes "package removed", false⟩], [], []⟩] :
        List PackageReport).foldl addPackage (initReport [] [] [] [] [])).packages =
      [⟨strBytes "example.com/m/p", [⟨strBytes "package removed", false⟩], [], []⟩] ∧
    ((([⟨strBytes "example.com/m/p", [⟨strBytes "package removed", false⟩], [], []⟩] :
        List PackageReport).foldl addPackage (initReport [] [] [] [] [])).haveCompatibleChanges = true ↔
      ∃ p ∈ ([⟨strBytes "example.com/m/p", [⟨strBytes "package removed", false⟩], [], []⟩] :
        List PackageReport), ∃ c ∈ p.changes, c.compatible = true) ∧
    ((([⟨strBytes "example.com/m/p", [⟨strBytes "package removed", false⟩], [], []⟩] :
        List PackageReport).foldl addPackage (initReport [] [] [] [] [])).haveIncompatibleChanges = true ↔
      ∃ p ∈ ([⟨strBytes "example.com/m/p", [⟨strBytes "package removed", false⟩], [], []⟩] :
        List PackageReport), ∃ c ∈ p.changes, c.compatible = false) :=
  claim_C8.2 [] [] [] [] [] _

/-! ## Theorems: validateVersion panic behaviour (claim C10) -/

theorem checkChanges_ne_panicked (r : Report) : checkChanges r ≠ .panicked := by
  unfold checkChanges
  split
  · simp
  · split
    · simp
    · split <;> simp

theorem validateVersion_panicked_iff (r : Report) :
    validateVersion r = .panicked ↔ r.releaseVersion = [] := by
  by_cases h : r.releaseVersion = []
  · simp [validateVersion, h]
  · simp only [validateVersion, if_neg h]
    constructor
    · intro hcon
      exfalso
      by_cases hE : r.haveErrors = true
      · rw [if_pos hE] at hcon
        exact VResult.noConfusion hcon
      · rw [if_neg hE] at hcon
        rcases hcs : checkSuffix r with _ | e
        · rw [hcs] at hcon
          exact checkChanges_ne_panicked r hcon
        · rw [hcs] at hcon
          exact VResult.noConfusion hcon
    · intro hcon
      exact absurd hcon h

/-- Claim C10: validateVersion reaches its panic exactly on an empty
release version, and neither isSuccessful nor Text can reach it: both
call validateVersion only under the guard releaseVersion != "". -/
theorem claim_C10 :
    ∀ r : Report,
      (validateVersion r = .panicked ↔ r.releaseVersion = []) ∧
      isSuccessful r ≠ none ∧
      textSummary r ≠ .panicValidate := by
  intro r
  refine ⟨validateVersion_panicked_iff r, ?_, ?_⟩
  · unfold isSuccessful
    split
    · simp
    · split
      · rcases hv : validateVersion r with _ | e | _
        · rename_i hrel
          have := (validateVersion_panicked_iff r).mp hv
          exact absurd this hrel
        · simp
        · simp
      · simp
  · unfold textSummary
    split
    · simp
    · split
      · rcases hv : validateVersion r with _ | e | _
        · rename_i _ hrel
          have := (validateVersion_panicked_iff r).mp hv
          exact absurd this hrel
        · simp
        · simp
      · split
        · simp
        · split
          · rcases suggestVersion r with _ | v <;> simp
          · rcases suggestVersion r with _ | v <;> simp

/-- Claim C10 witness: the statement applied at a concrete report with
a nonempty release version. -/
theorem claim_C10_wit :
    (validateVersion (mkReport (strBytes "example.com/m") (strBytes "v1.2.3")
        (strBytes "v1.2.4") false false false) = .panicked ↔
      (mkReport (strBytes "example.com/m") (strBytes "v1.2.3")
        (strBytes "v1.2.4") false false false).releaseVersion = []) ∧
    isSuccessful (mkReport (strBytes "example.com/m") (strBytes "v1.2.3")
        (strBytes "v1.2.4") false false false) ≠ none ∧
    textSummary (mkReport (strBytes "example.com/m") (strBytes "v1.2.3")
        (strBytes "v1.2.4") false false false) ≠ .panicValidate :=
  claim_C10 _

/-! ## Theorems: suggestVersion on well-formed bases (claim C1) -/

theorem indexByte_eq_none (l : GoStr) (b : Nat) (h : ∀ c ∈ l, c ≠ b) :
    indexByte l b = none := by
  induction l with
  | nil => rfl
  | cons c cs ih =>
    have hc : c ≠ b := h c (List.mem_cons_self c cs)
    simp only [indexByte, if_neg hc]
    rw [ih fun x hx => h x (List.mem_cons_of_mem _ hx)]
    rfl

theorem splitOnByte_nosep (b : Nat) (xs : GoStr) (h : ∀ c ∈ xs, c ≠ b) :
    splitOnByte b xs = [xs] := by
  induction xs with
  | nil => rfl
  | cons c cs ih =>
    have hc : c ≠ b := h c (List.mem_cons_self c cs)
    simp only [splitOnByte, if_neg hc]
    rw [ih fun x hx => h x (List.mem_cons_of_mem _ hx)]

theorem splitOnByte_sep (b : Nat) (xs ys : GoStr) (h : ∀ c ∈ xs, c ≠ b) :
    splitOnByte b (xs ++ b :: ys) = xs :: splitOnByte b ys := by
  induction xs with
  | nil => simp [splitOnByte]
  | cons c cs ih =>
    have hc : c ≠ b := h c (List.mem_cons_self c cs)
    rw [List.cons_append]
    simp only [splitOnByte, if_neg hc]
    rw [ih fun x hx => h x (List.mem_cons_of_mem _ hx)]

theorem digit_byte_bounds (s : GoStr) (hs : allDigits s = true) :
    ∀ c ∈ s, 48 ≤ c ∧ c ≤ 57 := by
  intro c hc
  have h1 := List.all_eq_true.mp hs c hc
  simpa [isDigitByte] using h1

theorem mkVersion_bytes (ma mi pa : GoStr)
    (hma : allDigits ma = true) (hmi : allDigits mi = true) (hpa : allDigits pa = true) :
    ∀ c ∈ mkVersion ma mi pa, c = 118 ∨ c = 46 ∨ (48 ≤ c ∧ c ≤ 57) := by
  have hT : mkVersion ma mi pa = 118 :: ((ma ++ 46 :: mi) ++ 46 :: pa) := rfl
  intro c hc
  rw [hT] at hc
  rcases List.mem_cons.mp hc with rfl | hc
  · exact Or.inl rfl
  rcases List.mem_append.mp hc with hc | hc
  · rcases List.mem_append.mp hc with hc | hc
    · exact Or.inr (Or.inr (digit_byte_bounds ma hma c hc))
    · rcases List.mem_cons.mp hc with rfl | hc
      · exact Or.inr (Or.inl rfl)
      · exact Or.inr (Or.inr (digit_byte_bounds mi hmi c hc))
  · rcases List.mem_cons.mp hc with rfl | hc
    · exact Or.inr (Or.inl rfl)
    · exact Or.inr (Or.inr (digit_byte_bounds pa hpa c hc))

theorem splitVersionNumbers_mkVersion (ma mi pa : GoStr)
    (hma : allDigits ma = true) (hmi : allDigits mi = true) (hpa : allDigits pa = true) :
    splitVersionNumbers (mkVersion ma mi pa) = .ok ma mi pa := by
  have hbytes := mkVersion_bytes ma mi pa hma hmi hpa
  have h45 : indexByte (mkVersion ma mi pa) 45 = none := by
    apply indexByte_eq_none
    intro c hc
    rcases hbytes c hc with rfl | rfl | hd <;> omega
  have h43 : indexByte (mkVersion ma mi pa) 43 = none := by
    apply indexByte_eq_none
    intro c hc
    rcases hbytes c hc with rfl | rfl | hd <;> omega
  have hsp : splitOnByte 46 (ma ++ 46 :: (mi ++ 46 :: pa)) = [ma, mi, pa] := by
    rw [splitOnByte_sep 46 ma _ ?hma]
    case hma =>
      intro c hc
      have := digit_byte_bounds ma hma c hc
      omega
    rw [splitOnByte_sep 46 mi _ ?hmi]
    case hmi =>
      intro c hc
      have := digit_byte_bounds mi hmi c hc
      omega
    rw [splitOnByte_nosep 46 pa ?hpa]
    case hpa =>
      intro c hc
      have := digit_byte_bounds pa hpa c hc
      omega
  have hmk : mkVersion ma mi pa = 118 :: (ma ++ 46 :: (mi ++ 46 :: pa)) := by
    simp [mkVersion]
  rw [hmk] at h45 h43
  rw [show splitVersionNumbers (mkVersion ma mi pa) =
    splitVersionNumbers (118 :: (ma ++ 46 :: (mi ++ 46 :: pa))) from by rw [← hmk]]
  unfold splitVersionNumbers
  rw [List.head?_cons, if_neg (by simp)]
  simp only [List.drop_succ_cons, List.drop_zero, h45, h43, hsp]

theorem suggestVersion_split_ok (r : Report) (ma mi pa : GoStr)
    (h : splitVersionNumbers r.baseVersion = .ok ma mi pa) :
    suggestVersion r =
      (if r.haveIncompatibleChanges && ma ≠ strBytes "0" then
        (incDecimal ma).map (fun m2 => mkVersion m2 (strBytes "0") (strBytes "0"))
      else if r.haveCompatibleChanges || (r.haveIncompatibleChanges && ma = strBytes "0") then
        (incDecimal mi).map (fun m2 => mkVersion ma m2 (strBytes "0"))
      else
        (incDecimal pa).map (fun p2 => mkVersion ma mi p2)) := by
  unfold suggestVersion
  rw [h]

/-- Claim C1: for a base version with numeric components
major.minor.patch, suggestVersion bumps the major (resetting minor and
patch) on an incompatible change with major not "0", bumps the minor
(resetting patch) on a compatible change or an incompatible change with
major "0", and bumps the patch otherwise; in particular v1.2.3 with no
changes gives v1.2.4, with only compatible changes v1.3.0, with any
incompatible change v2.0.0, and v0.5.0 with an incompatible change
gives v0.6.0. -/
theorem claim_C1 :
    (∀ (r : Report) (ma mi pa : GoStr),
      r.baseVersion = mkVersion ma mi pa →
      ma ≠ [] → mi ≠ [] → pa ≠ [] →
      allDigits ma = true → allDigits mi = true → allDigits pa = true →
      ((r.haveIncompatibleChanges = true ∧ ma ≠ strBytes "0") →
        ∃ ma2, suggestVersion r = some (mkVersion ma2 (strBytes "0") (strBytes "0")) ∧
          allDigits ma2 = true ∧ digitsVal ma2 = digitsVal ma + 1) ∧
      (¬(r.haveIncompatibleChanges = true ∧ ma ≠ strBytes "0") →
        (r.haveCompatibleChanges = true ∨ r.haveIncompatibleChanges = true) →
        ∃ mi2, suggestVersion r = some (mkVersion ma mi2 (strBytes "0")) ∧
          allDigits mi2 = true ∧ digitsVal mi2 = digitsVal mi + 1) ∧
      ((r.haveCompatibleChanges = false ∧ r.haveIncompatibleChanges = false) →
        ∃ pa2, suggestVersion r = some (mkVersion ma mi pa2) ∧
          allDigits pa2 = true ∧ digitsVal pa2 = digitsVal pa + 1)) ∧
    suggestVersion (mkReport [] (strBytes "v1.2.3") [] false false false) =
      some (strBytes "v1.2.4") ∧
    suggestVersion (mkReport [] (strBytes "v1.2.3") [] true false false) =
      some (strBytes "v1.3.0") ∧
    suggestVersion (mkReport [] (strBytes "v1.2.3") [] false true false) =
      some (strBytes "v2.0.0") ∧
    suggestVersion (mkReport [] (strBytes "v1.2.3") [] true true false) =
      some (strBytes "v2.0.0") ∧
    suggestVersion (mkReport [] (strBytes "v0.5.0") [] false true false) =
      some (strBytes "v0.6.0") := by
  refine ⟨?_, by decide, by decide, by decide, by decide, by decide⟩
  intro r ma mi pa hbase hnma hnmi hnpa hma hmi hpa
  have hsplit : splitVersionNumbers r.baseVersion = .ok ma mi pa := by
    rw [hbase]
    exact splitVersionNumbers_mkVersion ma mi pa hma hmi hpa
  rw [suggestVersion_split_ok r ma mi pa hsplit]
  refine ⟨?_, ?_, ?_⟩
  · rintro ⟨hi, h0⟩
    obtain ⟨ma2, heq, hdig2, hval2, _, _⟩ := incDecimal_spec ma hnma hma
    refine ⟨ma2, ?_, hdig2, hval2⟩
    rw [if_pos (by simp [hi, h0])]
    rw [heq]
    rfl
  · intro hnot hcase
    obtain ⟨mi2, heq, hdig2, hval2, _, _⟩ := incDecimal_spec mi hnmi hmi
    refine ⟨mi2, ?_, hdig2, hval2⟩
    rw [if_neg (by
      intro hcond
      simp only [Bool.and_eq_true, decide_eq_true_eq] at hcond
      exact hnot ⟨hcond.1, hcond.2⟩)]
    rw [if_pos (by
      rcases hcase with hc | hi2
      · simp [hc]
      · have hm0 : ma = strBytes "0" := by
          by_contra hne
          exact hnot ⟨hi2, hne⟩
        simp [hi2, hm0])]
    rw [heq]
    rfl
  · rintro ⟨hc, hi⟩
    obtain ⟨pa2, heq, hdig2, hval2, _, _⟩ := incDecimal_spec pa hnpa hpa
    refine ⟨pa2, ?_, hdig2, hval2⟩
    rw [if_neg (by simp [hi]), if_neg (by simp [hc, hi])]
    rw [heq]
    rfl

/-- Claim C1 witness: the patch-increment case applied at base version
"v7.0.9" (components "7", "0", "9") with no changes. -/
theorem claim_C1_wit :
    ∃ pa2, suggestVersion (mkReport [] (mkVersion (strBytes "7") (strBytes "0") (strBytes "9"))
        [] false false false) = some (mkVersion (strBytes "7") (strBytes "0") pa2) ∧
      allDigits pa2 = true ∧ digitsVal pa2 = digitsVal (strBytes "9") + 1 :=
  ((claim_C1.1 (mkReport [] (mkVersion (strBytes "7") (strBytes "0") (strBytes "9"))
      [] false false false) (strBytes "7") (strBytes "0") (strBytes "9")
      rfl (by decide) (by decide) (by decide) (by decide) (by decide) (by decide)).2.2)
    ⟨rfl, rfl⟩

/-! ## Theorems: validateVersion (claim C2) -/

theorem checkSuffix_none_iff (r : Report) :
    checkSuffix r = none ↔ releaseMatchesSuffix r = true := by
  unfold checkSuffix releaseMatchesSuffix
  rcases hsplit : splitPathVersion r.modulePath with ⟨pref, suffix, ok⟩
  cases ok
  · simp
  · rcases suffix with _ | ⟨c, pm⟩
    · simp only []
      by_cases h : semverMajor r.releaseVersion ≠ strBytes "v0" ∧
          semverMajor r.releaseVersion ≠ strBytes "v1"
      · rw [if_pos h]
        simp only [Bool.or_eq_true, beq_iff_eq]
        constructor
        · intro hcon
          exact Option.noConfusion hcon
        · intro hcon
          rcases hcon with hcon | hcon
          · exact absurd hcon h.1
          · exact absurd hcon h.2
      · rw [if_neg h]
        simp only [Bool.or_eq_true, beq_iff_eq]
        constructor
        · intro _
          by_cases h0 : semverMajor r.releaseVersion = strBytes "v0"
          · exact Or.inl h0
          · right
            by_contra h1
            exact h ⟨h0, h1⟩
        · intro _
          trivial
    · simp only []
      by_cases h1 : c ≠ 47 ∧ c ≠ 46
      · rw [if_pos h1]
        simp only [Bool.and_eq_true, Bool.or_eq_true, beq_iff_eq]
        constructor
        · intro hcon
          exact Option.noConfusion hcon
        · rintro ⟨hc47 | hc46, _⟩
          · exact absurd hc47 h1.1
          · exact absurd hc46 h1.2
      · rw [if_neg h1]
        by_cases h2 : pm ≠ semverMajor r.releaseVersion
        · rw [if_pos h2]
          simp only [Bool.and_eq_true, Bool.or_eq_true, beq_iff_eq]
          constructor
          · intro hcon
            exact Option.noConfusion hcon
          · rintro ⟨_, hpm⟩
            exact absurd hpm h2
        · rw [if_neg h2]
          simp only [Bool.and_eq_true, Bool.or_eq_true, beq_iff_eq]
          constructor
          · intro _
            refine ⟨?_, by
              by_contra hpm
              exact h2 hpm⟩
            by_cases hc47 : c = 47
            · exact Or.inl hc47
            · right
              by_contra hc46
              exact h1 ⟨hc47, hc46⟩
          · intro _
            trivial

theorem checkChanges_ok_iff (r : Report) :
    checkChanges r = .ok ↔
      (semverMajor r.baseVersion = strBytes "v0" ∨
        (r.haveIncompatibleChanges = false ∧
          ¬(r.haveCompatibleChanges = true ∧
            semverMajorMinor r.baseVersion = semverMajorMinor r.releaseVersion))) := by
  unfold checkChanges
  by_cases h0 : semverMajor r.baseVersion = strBytes "v0"
  · rw [if_pos h0]
    simp [h0]
  · rw [if_neg h0]
    by_cases hi : r.haveIncompatibleChanges = true
    · rw [if_pos hi]
      simp [h0, hi]
    · rw [if_neg hi]
      by_cases hcm : r.haveCompatibleChanges = true ∧
          semverMajorMinor r.baseVersion = semverMajorMinor r.releaseVersion
      · rw [if_pos hcm]
        simp only [Bool.not_eq_true] at hi
        simp [h0, hi, hcm]
      · rw [if_neg hcm]
        simp only [Bool.not_eq_true] at hi
        simp [h0, hi, hcm]

theorem validateVersion_ok_iff (r : Report) (h : r.releaseVersion ≠ []) :
    validateVersion r = .ok ↔
      (r.haveErrors = false ∧ releaseMatchesSuffix r = true ∧
        (semverMajor r.baseVersion = strBytes "v0" ∨
          (r.haveIncompatibleChanges = false ∧
            ¬(r.haveCompatibleChanges = true ∧
              semverMajorMinor r.baseVersion = semverMajorMinor r.releaseVersion)))) := by
  unfold validateVersion
  rw [if_neg h]
  by_cases hE : r.haveErrors = true
  · rw [if_pos hE]
    simp [hE]
  · rw [if_neg hE]
    simp only [Bool.not_eq_true] at hE
    rcases hcs : checkSuffix r with _ | e
    · have hms : releaseMatchesSuffix r = true := (checkSuffix_none_iff r).mp hcs
      rw [checkChanges_ok_iff r]
      simp [hE, hms]
    · have hms : releaseMatchesSuffix r = false := by
        rcases hb : releaseMatchesSuffix r with _ | _
        · rfl
        · rw [(checkSuffix_none_iff r).mpr hb] at hcs
          exact Option.noConfusion hcs
      simp [hE, hms]

/-- Claim C2 (amended): for a nonempty release version, validateVersion
fails when the error flag is set; else when the release major does not
satisfy the module path's suffix convention; else, with a base major
other than v0, when incompatible changes exist or compatible changes
exist with unchanged base/release major.minor; otherwise (including any
base with major v0 after the suffix check) it passes. In particular:
base v1.2.3, release v1.2.4 with no changes passes; with one compatible
change fails; base v1.2.3, release v2.0.0 with an incompatible change
fails without a matching /v2 suffix (suffix mismatch) and also fails
with one (incompatible changes under a stable base major always fail). -/
theorem claim_C2 :
    (∀ r : Report, r.releaseVersion ≠ [] →
      (validateVersion r = .ok ↔
        (r.haveErrors = false ∧ releaseMatchesSuffix r = true ∧
          (semverMajor r.baseVersion = strBytes "v0" ∨
            (r.haveIncompatibleChanges = false ∧
              ¬(r.haveCompatibleChanges = true ∧
                semverMajorMinor r.baseVersion = semverMajorMinor r.releaseVersion)))))) ∧
    validateVersion (mkReport (strBytes "example.com/m") (strBytes "v1.2.3")
        (strBytes "v1.2.4") false false true) = .err .errorsFound ∧
    validateVersion (mkReport (strBytes "example.com/m") (strBytes "v1.2.3")
        (strBytes "v1.2.4") false false false) = .ok ∧
    validateVersion (mkReport (strBytes "example.com/m") (strBytes "v1.2.3")
        (strBytes "v1.2.4") true false false) = .err .compatibleSameMajorMinor ∧
    validateVersion (mkReport (strBytes "example.com/m") (strBytes "v1.2.3")
        (strBytes "v2.0.0") false true false) = .err .missingSuffixForMajor ∧
    validateVersion (mkReport (strBytes "example.com/m/v2") (strBytes "v1.2.3")
        (strBytes "v2.0.0") false true false) = .err .incompatibleChanges ∧
    validateVersion (mkReport (strBytes "example.com/m") (strBytes "v0.5.0")
        (strBytes "v0.5.1") true true false) = .ok := by
  refine ⟨?_, by decide, by decide, by decide, by decide, by decide, by decide⟩
  intro r h
  exact validateVersion_ok_iff r h

/-- Claim C2 witness: the characterization applied at a concrete report
(base v1.2.3, release v1.3.0, one compatible change: valid). -/
theorem claim_C2_wit :
    validateVersion (mkReport (strBytes "example.com/m") (strBytes "v1.2.3")
        (strBytes "v1.3.0") true false false) = .ok ↔
      ((mkReport (strBytes "example.com/m") (strBytes "v1.2.3")
          (strBytes "v1.3.0") true false false).haveErrors = false ∧
        releaseMatchesSuffix (mkReport (strBytes "example.com/m") (strBytes "v1.2.3")
          (strBytes "v1.3.0") true false false) = true ∧
        (semverMajor (mkReport (strBytes "example.com/m") (strBytes "v1.2.3")
            (strBytes "v1.3.0") true false false).baseVersion = strBytes "v0" ∨
          ((mkReport (strBytes "example.com/m") (strBytes "v1.2.3")
              (strBytes "v1.3.0") true false false).haveIncompatibleChanges = false ∧
            ¬((mkReport (strBytes "example.com/m") (strBytes "v1.2.3")
                (strBytes "v1.3.0") true false false).haveCompatibleChanges = true ∧
              semverMajorMinor (mkReport (strBytes "example.com/m") (strBytes "v1.2.3")
                  (strBytes "v1.3.0") true false false).baseVersion =
                semverMajorMinor (mkReport (strBytes "example.com/m") (strBytes "v1.2.3")
                  (strBytes "v1.3.0") true false false).releaseVersion)))) :=
  claim_C2.1 _ (by decide)

/-- Claim C2 counterexample: with module path example.com/m/v2 (a
matching /v2 suffix for release v2.0.0), base v1.2.3 and one
incompatible change, validateVersion still returns an error, while the
claim's example says such a release is invalid only when the matching
suffix is absent. -/
theorem claim_C2_cex :
    releaseMatchesSuffix (mkReport (strBytes "example.com/m/v2") (strBytes "v1.2.3")
        (strBytes "v2.0.0") false true false) = true ∧
    validateVersion (mkReport (strBytes "example.com/m/v2") (strBytes "v1.2.3")
        (strBytes "v2.0.0") false true false) = .err .incompatibleChanges ∧
    validateVersion (mkReport (strBytes "example.com/m/v2") (strBytes "v1.2.3")
        (strBytes "v2.0.0") false true false) ≠ .ok := by
  refine ⟨by decide, by decide, by decide⟩

/-! ## Theorems: the prerelease/build trimming defect (claim C9) -/

/-- Claim C9: suggestVersion is not a function of the base version's
semantic-version triple alone. "v1.2.3" and "v1.2.3-pre" parse to the
same (major, minor, patch) triple ("1", "2", "3"), yet with no changes
the code suggests "v1.2.4" for the former and the malformed "v1.2.3."
for the latter: splitVersionNumbers slices the prerelease off `base =
vers[1:]` using an index computed on `vers`, leaving the "-" in the
patch component ("3-"), whose byte increment is ".". -/
theorem claim_C9 :
    semverParse (strBytes "v1.2.3-pre") =
      some ⟨strBytes "1", strBytes "2", strBytes "3", strBytes "-pre", []⟩ ∧
    semverParse (strBytes "v1.2.3") =
      some ⟨strBytes "1", strBytes "2", strBytes "3", [], []⟩ ∧
    splitVersionNumbers (strBytes "v1.2.3-pre") =
      .ok (strBytes "1") (strBytes "2") (strBytes "3-") ∧
    suggestVersion (mkReport [] (strBytes "v1.2.3") [] false false false) =
      some (strBytes "v1.2.4") ∧
    suggestVersion (mkReport [] (strBytes "v1.2.3-pre") [] false false false) =
      some (strBytes "v1.2.3.") := by
  refine ⟨by decide, by decide, by decide, by decide, by decide⟩

/-! ## Theorems: order facts for Go string comparison -/

theorem goStrLt_cons_iff (a b : Nat) (as bs : GoStr) :
    goStrLt (a :: as) (b :: bs) = true ↔ (a < b ∨ (a = b ∧ goStrLt as bs = true)) := by
  simp [goStrLt]

theorem goStrLt_irrefl (x : GoStr) : goStrLt x x = false := by
  induction x with
  | nil => rfl
  | cons a as ih =>
    rw [Bool.eq_false_iff]
    intro h
    rcases (goStrLt_cons_iff a a as as).mp h with h | ⟨_, h⟩
    · omega
    · rw [ih] at h
      exact Bool.noConfusion h

theorem goStrLt_ne (x y : GoStr) (h : goStrLt x y = true) : x ≠ y := by
  intro he
  subst he
  rw [goStrLt_irrefl] at h
  exact Bool.noConfusion h

theorem goStrLt_asymm (x : GoStr) : ∀ y, goStrLt x y = true → goStrLt y x = false := by
  induction x with
  | nil =>
    intro y _
    cases y with
    | nil => rfl
    | cons b bs => rfl
  | cons a as ih =>
    intro y h
    cases y with
    | nil => exact absurd h (by simp [goStrLt])
    | cons b bs =>
      rw [Bool.eq_false_iff]
      intro h2
      rcases (goStrLt_cons_iff a b as bs).mp h with h | ⟨hab, h⟩ <;>
        rcases (goStrLt_cons_iff b a bs as).mp h2 with h2 | ⟨hba, h2⟩
      · omega
      · omega
      · omega
      · rw [ih bs h] at h2
        exact Bool.noConfusion h2

theorem goStrLt_trans (x : GoStr) :
    ∀ y z, goStrLt x y = true → goStrLt y z = true → goStrLt x z = true := by
  induction x with
  | nil =>
    intro y z h1 h2
    cases y with
    | nil => exact absurd h1 (by simp [goStrLt])
    | cons b bs =>
      cases z with
      | nil => exact absurd h2 (by simp [goStrLt])
      | cons c cs => rfl
  | cons a as ih =>
    intro y z h1 h2
    cases y with
    | nil => exact absurd h1 (by simp [goStrLt])
    | cons b bs =>
      cases z with
      | nil => exact absurd h2 (by simp [goStrLt])
      | cons c cs =>
        rw [goStrLt_cons_iff]
        rcases (goStrLt_cons_iff a b as bs).mp h1 with h1 | ⟨hab, h1⟩ <;>
          rcases (goStrLt_cons_iff b c bs cs).mp h2 with h2 | ⟨hbc, h2⟩
        · exact Or.inl (by omega)
        · exact Or.inl (by omega)
        · exact Or.inl (by omega)
        · exact Or.inr ⟨by omega, ih bs cs h1 h2⟩

theorem goStrLt_connex (x : GoStr) :
    ∀ y, goStrLt x y = false → goStrLt y x = false → x = y := by
  induction x with
  | nil =>
    intro y h1 _
    cases y with
    | nil => rfl
    | cons b bs => exact absurd h1 (by simp [goStrLt])
  | cons a as ih =>
    intro y h1 h2
    cases y with
    | nil => exact absurd h2 (by simp [goStrLt])
    | cons b bs =>
      have h1' : ¬(a < b ∨ (a = b ∧ goStrLt as bs = true)) := by
        intro hc
        rw [← goStrLt_cons_iff] at hc
        rw [h1] at hc
        exact Bool.noConfusion hc
      have h2' : ¬(b < a ∨ (b = a ∧ goStrLt bs as = true)) := by
        intro hc
        rw [← goStrLt_cons_iff] at hc
        rw [h2] at hc
        exact Bool.noConfusion hc
      have hab : a = b := by omega
      subst hab
      have hf1 : goStrLt as bs = false := by
        rcases hb : goStrLt as bs with _ | _
        · rfl
        · exact absurd (Or.inr ⟨rfl, hb⟩) h1'
      have hf2 : goStrLt bs as = false := by
        rcases hb : goStrLt bs as with _ | _
        · rfl
        · exact absurd (Or.inr ⟨rfl, hb⟩) h2'
      rw [ih bs hf1 hf2]

/-! ## Theorems: the merge loop (claims C4, C5, C6) -/

theorem oldOnly_path {α : Type} (isInt : GoStr → Bool) (o : Pkg α) :
    ∀ pr ∈ oldOnlyReports isInt o, pr.path = o.pkgPath := by
  intro pr hpr
  unfold oldOnlyReports at hpr
  split at hpr
  · rw [List.mem_singleton] at hpr
    subst hpr
    rfl
  · exact absurd hpr (List.not_mem_nil pr)

theorem newOnly_path {α : Type} (isInt : GoStr → Bool) (sc : Bool) (n : Pkg α) :
    ∀ pr ∈ newOnlyReports isInt sc n, pr.path = n.pkgPath := by
  intro pr hpr
  unfold newOnlyReports at hpr
  split at hpr
  · exact absurd hpr (List.not_mem_nil pr)
  · rw [List.mem_singleton] at hpr
    subst hpr
    rfl

theorem both_path {α : Type} (apid : α → α → List Change) (isInt : GoStr → Bool) (o n : Pkg α) :
    ∀ pr ∈ bothReports apid isInt o n, pr.path = o.pkgPath := by
  intro pr hpr
  unfold bothReports at hpr
  split at hpr
  · rw [List.mem_singleton] at hpr
    subst hpr
    rfl
  · exact absurd hpr (List.not_mem_nil pr)

theorem filter_path_all (l : List PackageReport) (q p : GoStr)
    (hl : ∀ pr ∈ l, pr.path = q) :
    l.filter (fun pr => pr.path == p) = (if q = p then l else []) := by
  by_cases h : q = p
  · rw [if_pos h]
    apply List.filter_eq_self.mpr
    intro pr hpr
    rw [hl pr hpr, h]
    exact beq_self_eq_true p
  · rw [if_neg h]
    apply List.filter_eq_nil_iff.mpr
    intro pr hpr
    rw [hl pr hpr]
    simp [h]

theorem findPkg_eq_none {α : Type} (l : List (Pkg α)) (p : GoStr)
    (h : ∀ x ∈ l, x.pkgPath ≠ p) : findPkg l p = none := by
  apply List.find?_eq_none.mpr
  intro x hx
  simp [h x hx]

theorem findPkg_sorted_mem {α : Type} (l : List (Pkg α)) (hl : pkgsSorted l)
    (x : Pkg α) (hx : x ∈ l) : findPkg l x.pkgPath = some x := by
  induction l with
  | nil => exact absurd hx (List.not_mem_nil x)
  | cons y ys ih =>
    rcases List.mem_cons.mp hx with rfl | hx2
    · unfold findPkg
      exact List.find?_cons_of_pos _ (by simp)
    · have hlt : goStrLt y.pkgPath x.pkgPath = true :=
        (List.pairwise_cons.mp hl).1 x hx2
      have hne : y.pkgPath ≠ x.pkgPath := goStrLt_ne _ _ hlt
      unfold findPkg
      rw [List.find?_cons_of_neg _ (by simp [hne])]
      exact ih (List.pairwise_cons.mp hl).2 hx2

theorem mergeSpec_oo {α : Type} {apid : α → α → List Change} {isInt : GoStr → Bool}
    {sc : Bool} {os ns : List (Pkg α)} {p : GoStr} {o n : Pkg α}
    (h1 : findPkg os p = some o) (h2 : findPkg ns p = some n) :
    mergeSpec apid isInt sc os ns p = bothReports apid isInt o n := by
  unfold mergeSpec
  rw [h1, h2]

theorem mergeSpec_on {α : Type} {apid : α → α → List Change} {isInt : GoStr → Bool}
    {sc : Bool} {os ns : List (Pkg α)} {p : GoStr} {o : Pkg α}
    (h1 : findPkg os p = some o) (h2 : findPkg ns p = none) :
    mergeSpec apid isInt sc os ns p = oldOnlyReports isInt o := by
  unfold mergeSpec
  rw [h1, h2]

theorem mergeSpec_no {α : Type} {apid : α → α → List Change} {isInt : GoStr → Bool}
    {sc : Bool} {os ns : List (Pkg α)} {p : GoStr} {n : Pkg α}
    (h1 : findPkg os p = none) (h2 : findPkg ns p = some n) :
    mergeSpec apid isInt sc os ns p = newOnlyReports isInt sc n := by
  unfold mergeSpec
  rw [h1, h2]

theorem mergeSpec_nn {α : Type} {apid : α → α → List Change} {isInt : GoStr → Bool}
    {sc : Bool} {os ns : List (Pkg α)} {p : GoStr}
    (h1 : findPkg os p = none) (h2 : findPkg ns p = none) :
    mergeSpec apid isInt sc os ns p = [] := by
  unfold mergeSpec
  rw [h1, h2]

theorem findPkg_nil {α : Type} (p : GoStr) : findPkg ([] : List (Pkg α)) p = none := rfl

theorem findPkg_cons_self {α : Type} (x : Pkg α) (l : List (Pkg α)) (p : GoStr)
    (h : x.pkgPath = p) : findPkg (x :: l) p = some x := by
  unfold findPkg
  exact List.find?_cons_of_pos _ (by simp [h])

theorem findPkg_cons_ne {α : Type} (x : Pkg α) (l : List (Pkg α)) (p : GoStr)
    (h : x.pkgPath ≠ p) : findPkg (x :: l) p = findPkg l p := by
  unfold findPkg
  exact List.find?_cons_of_neg _ (by simp [h])

theorem mergeFuel_cons_nil {α : Type} (apid : α → α → List Change) (isInt : GoStr → Bool)
    (sc : Bool) (fuel : Nat) (o : Pkg α) (os : List (Pkg α)) :
    mergeFuel apid isInt sc (fuel + 1) (o :: os) [] =
      oldOnlyReports isInt o ++ mergeFuel apid isInt sc fuel os [] := rfl

theorem mergeFuel_nil_cons {α : Type} (apid : α → α → List Change) (isInt : GoStr → Bool)
    (sc : Bool) (fuel : Nat) (n : Pkg α) (ns : List (Pkg α)) :
    mergeFuel apid isInt sc (fuel + 1) [] (n :: ns) =
      newOnlyReports isInt sc n ++ mergeFuel apid isInt sc fuel [] ns := rfl

theorem mergeFuel_cons_cons {α : Type} (apid : α → α → List Change) (isInt : GoStr → Bool)
    (sc : Bool) (fuel : Nat) (o : Pkg α) (os : List (Pkg α)) (n : Pkg α) (ns : List (Pkg α)) :
    mergeFuel apid isInt sc (fuel + 1) (o :: os) (n :: ns) =
      (if goStrLt o.pkgPath n.pkgPath then
        oldOnlyReports isInt o ++ mergeFuel apid isInt sc fuel os (n :: ns)
      else if goStrLt n.pkgPath o.pkgPath then
        newOnlyReports isInt sc n ++ mergeFuel apid isInt sc fuel (o :: os) ns
      else
        bothReports apid isInt o n ++ mergeFuel apid isInt sc fuel os ns) := rfl

theorem mergeFuel_path_mem {α : Type} (apid : α → α → List Change) (isInt : GoStr → Bool)
    (sc : Bool) :
    ∀ (fuel : Nat) (os ns : List (Pkg α)) (pr : PackageReport),
      pr ∈ mergeFuel apid isInt sc fuel os ns →
      (∃ o ∈ os, pr.path = o.pkgPath) ∨ (∃ n ∈ ns, pr.path = n.pkgPath) := by
  intro fuel
  induction fuel with
  | zero =>
    intro os ns pr h
    exact absurd h (List.not_mem_nil pr)
  | succ fuel ih =>
    intro os ns pr h
    rcases os with _ | ⟨o, os⟩ <;> rcases ns with _ | ⟨n, ns⟩
    · exact absurd h (List.not_mem_nil pr)
    · rw [mergeFuel_nil_cons] at h
      rcases List.mem_append.mp h with h | h
      · exact Or.inr ⟨n, List.mem_cons_self n ns, newOnly_path isInt sc n pr h⟩
      · rcases ih [] ns pr h with ⟨o, ho, _⟩ | ⟨m, hm, hp⟩
        · exact absurd ho (List.not_mem_nil o)
        · exact Or.inr ⟨m, List.mem_cons_of_mem n hm, hp⟩
    · rw [mergeFuel_cons_nil] at h
      rcases List.mem_append.mp h with h | h
      · exact Or.inl ⟨o, List.mem_cons_self o os, oldOnly_path isInt o pr h⟩
      · rcases ih os [] pr h with ⟨m, hm, hp⟩ | ⟨m, hm, _⟩
        · exact Or.inl ⟨m, List.mem_cons_of_mem o hm, hp⟩
        · exact absurd hm (List.not_mem_nil m)
    · rw [mergeFuel_cons_cons] at h
      by_cases h1 : goStrLt o.pkgPath n.pkgPath = true
      · rw [if_pos h1] at h
        rcases List.mem_append.mp h with h | h
        · exact Or.inl ⟨o, List.mem_cons_self o os, oldOnly_path isInt o pr h⟩
        · rcases ih os (n :: ns) pr h with ⟨m, hm, hp⟩ | ⟨m, hm, hp⟩
          · exact Or.inl ⟨m, List.mem_cons_of_mem o hm, hp⟩
          · exact Or.inr ⟨m, hm, hp⟩
      · rw [if_neg h1] at h
        by_cases h2 : goStrLt n.pkgPath o.pkgPath = true
        · rw [if_pos h2] at h
          rcases List.mem_append.mp h with h | h
          · exact Or.inr ⟨n, List.mem_cons_self n ns, newOnly_path isInt sc n pr h⟩
          · rcases ih (o :: os) ns pr h with ⟨m, hm, hp⟩ | ⟨m, hm, hp⟩
            · exact Or.inl ⟨m, hm, hp⟩
            · exact Or.inr ⟨m, List.mem_cons_of_mem n hm, hp⟩
        · rw [if_neg h2] at h
          rcases List.mem_append.mp h with h | h
          · exact Or.inl ⟨o, List.mem_cons_self o os, both_path apid isInt o n pr h⟩
          · rcases ih os ns pr h with ⟨m, hm, hp⟩ | ⟨m, hm, hp⟩
            · exact Or.inl ⟨m, List.mem_cons_of_mem o hm, hp⟩
            · exact Or.inr ⟨m, List.mem_cons_of_mem n hm, hp⟩

/-- Filtering everything the merge loop emits down to one package path
yields exactly the reports of that path's branch (mergeSpec), provided
both inputs are sorted. -/
theorem mergeFuel_filter {α : Type} (apid : α → α → List Change) (isInt : GoStr → Bool)
    (sc : Bool) :
    ∀ (fuel : Nat) (os ns : List (Pkg α)), os.length + ns.length ≤ fuel →
      pkgsSorted os → pkgsSorted ns → ∀ p : GoStr,
      (mergeFuel apid isInt sc fuel os ns).filter (fun pr => pr.path == p) =
        mergeSpec apid isInt sc os ns p := by
  intro fuel
  induction fuel with
  | zero =>
    intro os ns hlen hos hns p
    rcases os with _ | ⟨o, os⟩
    · rcases ns with _ | ⟨n, ns⟩
      · rfl
      · simp at hlen
    · simp at hlen
  | succ fuel ih =>
    intro os ns hlen hos hns p
    rcases os with _ | ⟨o, os⟩ <;> rcases ns with _ | ⟨n, ns⟩
    · rfl
    · have hns2 := List.pairwise_cons.mp hns
      have hlen2 : ([] : List (Pkg α)).length + ns.length ≤ fuel := by
        simp at hlen ⊢
        omega
      rw [mergeFuel_nil_cons, List.filter_append,
        filter_path_all _ n.pkgPath p (newOnly_path isInt sc n),
        ih [] ns hlen2 List.Pairwise.nil hns2.2 p]
      by_cases hp : n.pkgPath = p
      · have hnone : findPkg ns p = none := by
          apply findPkg_eq_none
          intro x hx heq
          exact goStrLt_ne _ _ (hns2.1 x hx) (by rw [hp, ← heq])
        rw [if_pos hp, mergeSpec_nn (findPkg_nil p) hnone,
          mergeSpec_no (findPkg_nil p) (findPkg_cons_self n ns p hp), List.append_nil]
      · rw [if_neg hp, List.nil_append]
        unfold mergeSpec
        rw [findPkg_cons_ne n ns p hp]
    · have hos2 := List.pairwise_cons.mp hos
      have hlen2 : os.length + ([] : List (Pkg α)).length ≤ fuel := by
        simp at hlen ⊢
        omega
      rw [mergeFuel_cons_nil, List.filter_append,
        filter_path_all _ o.pkgPath p (oldOnly_path isInt o),
        ih os [] hlen2 hos2.2 List.Pairwise.nil p]
      by_cases hp : o.pkgPath = p
      · have hnone : findPkg os p = none := by
          apply findPkg_eq_none
          intro x hx heq
          exact goStrLt_ne _ _ (hos2.1 x hx) (by rw [hp, ← heq])
        rw [if_pos hp, mergeSpec_nn hnone (findPkg_nil p),
          mergeSpec_on (findPkg_cons_self o os p hp) (findPkg_nil p), List.append_nil]
      · rw [if_neg hp, List.nil_append]
        unfold mergeSpec
        rw [findPkg_cons_ne o os p hp]
    · have hos2 := List.pairwise_cons.mp hos
      have hns2 := List.pairwise_cons.mp hns
      rw [mergeFuel_cons_cons]
      by_cases h1 : goStrLt o.pkgPath n.pkgPath = true
      · have hlen2 : os.length + (n :: ns).length ≤ fuel := by
          simp at hlen ⊢
          omega
        rw [if_pos h1, List.filter_append,
          filter_path_all _ o.pkgPath p (oldOnly_path isInt o),
          ih os (n :: ns) hlen2 hos2.2 hns p]
        by_cases hp : o.pkgPath = p
        · have hnone1 : findPkg os p = none := by
            apply findPkg_eq_none
            intro x hx heq
            exact goStrLt_ne _ _ (hos2.1 x hx) (by rw [hp, ← heq])
          have hnone2 : findPkg (n :: ns) p = none := by
            apply findPkg_eq_none
            intro x hx heq
            rcases List.mem_cons.mp hx with rfl | hx2
            · exact goStrLt_ne _ _ h1 (by rw [hp, ← heq])
            · exact goStrLt_ne _ _ (goStrLt_trans _ _ _ h1 (hns2.1 x hx2))
                (by rw [hp, ← heq])
          rw [if_pos hp, mergeSpec_nn hnone1 hnone2,
            mergeSpec_on (findPkg_cons_self o os p hp) hnone2, List.append_nil]
        · rw [if_neg hp, List.nil_append]
          unfold mergeSpec
          rw [findPkg_cons_ne o os p hp]
      · rw [if_neg h1]
        by_cases h2 : goStrLt n.pkgPath o.pkgPath = true
        · have hlen2 : (o :: os).length + ns.length ≤ fuel := by
            simp at hlen ⊢
            omega
          rw [if_pos h2, List.filter_append,
            filter_path_all _ n.pkgPath p (newOnly_path isInt sc n),
            ih (o :: os) ns hlen2 hos hns2.2 p]
          by_cases hp : n.pkgPath = p
          · have hnone1 : findPkg (o :: os) p = none := by
              apply findPkg_eq_none
              intro x hx heq
              rcases List.mem_cons.mp hx with rfl | hx2
              · exact goStrLt_ne _ _ h2 (by rw [hp, ← heq])
              · exact goStrLt_ne _ _ (goStrLt_trans _ _ _ h2 (hos2.1 x hx2))
                  (by rw [hp, ← heq])
            have hnone2 : findPkg ns p = none := by
              apply findPkg_eq_none
              intro x hx heq
              exact goStrLt_ne _ _ (hns2.1 x hx) (by rw [hp, ← heq])
            rw [if_pos hp, mergeSpec_nn hnone1 hnone2,
              mergeSpec_no hnone1 (findPkg_cons_self n ns p hp), List.append_nil]
          · rw [if_neg hp, List.nil_append]
            unfold mergeSpec
            rw [findPkg_cons_ne n ns p hp]
        · have hf1 : goStrLt o.pkgPath n.pkgPath = false := Bool.eq_false_iff.mpr h1
          have hf2 : goStrLt n.pkgPath o.pkgPath = false := Bool.eq_false_iff.mpr h2
          have heq : o.pkgPath = n.pkgPath := goStrLt_connex _ _ hf1 hf2
          have hlen2 : os.length + ns.length ≤ fuel := by
            simp at hlen ⊢
            omega
          rw [if_neg h2, List.filter_append,
            filter_path_all _ o.pkgPath p (both_path apid isInt o n),
            ih os ns hlen2 hos2.2 hns2.2 p]
          by_cases hp : o.pkgPath = p
          · have hnone1 : findPkg os p = none := by
              apply findPkg_eq_none
              intro x hx hxeq
              exact goStrLt_ne _ _ (hos2.1 x hx) (by rw [hp, ← hxeq])
            have hnone2 : findPkg ns p = none := by
              apply findPkg_eq_none
              intro x hx hxeq
              exact goStrLt_ne _ _ (hns2.1 x hx) (by rw [← heq, hp, ← hxeq])
            rw [if_pos hp, mergeSpec_nn hnone1 hnone2,
              mergeSpec_oo (findPkg_cons_self o os p hp)
                (findPkg_cons_self n ns p (by rw [← heq]; exact hp)),
              List.append_nil]
          · rw [if_neg hp, List.nil_append]
            unfold mergeSpec
            rw [findPkg_cons_ne o os p hp,
              findPkg_cons_ne n ns p (by rw [← heq]; exact hp)]

/-- mergePkgs version of mergeFuel_filter. -/
theorem mergePkgs_filter {α : Type} (apid : α → α → List Change) (isInt : GoStr → Bool)
    (sc : Bool) (os ns : List (Pkg α)) (hos : pkgsSorted os) (hns : pkgsSorted ns)
    (p : GoStr) :
    (mergePkgs apid isInt sc os ns).filter (fun pr => pr.path == p) =
      mergeSpec apid isInt sc os ns p :=
  mergeFuel_filter apid isInt sc (os.length + ns.length) os ns (Nat.le_refl _) hos hns p

theorem oldOnly_pairwise {α : Type} (isInt : GoStr → Bool) (o : Pkg α)
    (R : PackageReport → PackageReport → Prop) : (oldOnlyReports isInt o).Pairwise R := by
  unfold oldOnlyReports
  split
  · exact List.pairwise_singleton R _
  · exact List.Pairwise.nil

theorem newOnly_pairwise {α : Type} (isInt : GoStr → Bool) (sc : Bool) (n : Pkg α)
    (R : PackageReport → PackageReport → Prop) : (newOnlyReports isInt sc n).Pairwise R := by
  unfold newOnlyReports
  split
  · exact List.Pairwise.nil
  · exact List.pairwise_singleton R _

theorem both_pairwise {α : Type} (apid : α → α → List Change) (isInt : GoStr → Bool)
    (o n : Pkg α) (R : PackageReport → PackageReport → Prop) :
    (bothReports apid isInt o n).Pairwise R := by
  unfold bothReports
  split
  · exact List.pairwise_singleton R _
  · exact List.Pairwise.nil

/-- The merge loop emits package reports in strictly increasing path
order when both inputs are sorted. -/
theorem mergeFuel_sorted {α : Type} (apid : α → α → List Change) (isInt : GoStr → Bool)
    (sc : Bool) :
    ∀ (fuel : Nat) (os ns : List (Pkg α)), os.length + ns.length ≤ fuel →
      pkgsSorted os → pkgsSorted ns →
      reportsSorted (mergeFuel apid isInt sc fuel os ns) := by
  intro fuel
  induction fuel with
  | zero =>
    intro os ns _ _ _
    exact List.Pairwise.nil
  | succ fuel ih =>
    intro os ns hlen hos hns
    rcases os with _ | ⟨o, os⟩ <;> rcases ns with _ | ⟨n, ns⟩
    · exact List.Pairwise.nil
    · have hns2 := List.pairwise_cons.mp hns
      have hlen2 : ([] : List (Pkg α)).length + ns.length ≤ fuel := by
        simp at hlen ⊢
        omega
      rw [mergeFuel_nil_cons]
      refine List.pairwise_append.mpr ⟨newOnly_pairwise isInt sc n _,
        ih [] ns hlen2 List.Pairwise.nil hns2.2, ?_⟩
      intro a ha b hb
      rw [newOnly_path isInt sc n a ha]
      rcases mergeFuel_path_mem apid isInt sc fuel [] ns b hb with ⟨m, hm, _⟩ | ⟨m, hm, hbp⟩
      · exact absurd hm (List.not_mem_nil m)
      · rw [hbp]
        exact hns2.1 m hm
    · have hos2 := List.pairwise_cons.mp hos
      have hlen2 : os.length + ([] : List (Pkg α)).length ≤ fuel := by
        simp at hlen ⊢
        omega
      rw [mergeFuel_cons_nil]
      refine List.pairwise_append.mpr ⟨oldOnly_pairwise isInt o _,
        ih os [] hlen2 hos2.2 List.Pairwise.nil, ?_⟩
      intro a ha b hb
      rw [oldOnly_path isInt o a ha]
      rcases mergeFuel_path_mem apid isInt sc fuel os [] b hb with ⟨m, hm, hbp⟩ | ⟨m, hm, _⟩
      · rw [hbp]
        exact hos2.1 m hm
      · exact absurd hm (List.not_mem_nil m)
    · have hos2 := List.pairwise_cons.mp hos
      have hns2 := List.pairwise_cons.mp hns
      rw [mergeFuel_cons_cons]
      by_cases h1 : goStrLt o.pkgPath n.pkgPath = true
      · have hlen2 : os.length + (n :: ns).length ≤ fuel := by
          simp at hlen ⊢
          omega
        rw [if_pos h1]
        refine List.pairwise_append.mpr ⟨oldOnly_pairwise isInt o _,
          ih os (n :: ns) hlen2 hos2.2 hns, ?_⟩
        intro a ha b hb
        rw [oldOnly_path isInt o a ha]
        rcases mergeFuel_path_mem apid isInt sc fuel os (n :: ns) b hb with
          ⟨m, hm, hbp⟩ | ⟨m, hm, hbp⟩
        · rw [hbp]
          exact hos2.1 m hm
        · rw [hbp]
          rcases List.mem_cons.mp hm with rfl | hm2
          · exact h1
          · exact goStrLt_trans _ _ _ h1 (hns2.1 m hm2)
      · rw [if_neg h1]
        by_cases h2 : goStrLt n.pkgPath o.pkgPath = true
        · have hlen2 : (o :: os).length + ns.length ≤ fuel := by
            simp at hlen ⊢
            omega
          rw [if_pos h2]
          refine List.pairwise_append.mpr ⟨newOnly_pairwise isInt sc n _,
            ih (o :: os) ns hlen2 hos hns2.2, ?_⟩
          intro a ha b hb
          rw [newOnly_path isInt sc n a ha]
          rcases mergeFuel_path_mem apid isInt sc fuel (o :: os) ns b hb with
            ⟨m, hm, hbp⟩ | ⟨m, hm, hbp⟩
          · rw [hbp]
            rcases List.mem_cons.mp hm with rfl | hm2
            · exact h2
            · exact goStrLt_trans _ _ _ h2 (hos2.1 m hm2)
          · rw [hbp]
            exact hns2.1 m hm
        · have hf1 : goStrLt o.pkgPath n.pkgPath = false := Bool.eq_false_iff.mpr h1
          have hf2 : goStrLt n.pkgPath o.pkgPath = false := Bool.eq_false_iff.mpr h2
          have heq : o.pkgPath = n.pkgPath := goStrLt_connex _ _ hf1 hf2
          have hlen2 : os.length + ns.length ≤ fuel := by
            simp at hlen ⊢
            omega
          rw [if_neg h2]
          refine List.pairwise_append.mpr ⟨both_pairwise apid isInt o n _,
            ih os ns hlen2 hos2.2 hns2.2, ?_⟩
          intro a ha b hb
          rw [both_path apid isInt o n a ha]
          rcases mergeFuel_path_mem apid isInt sc fuel os ns b hb with
            ⟨m, hm, hbp⟩ | ⟨m, hm, hbp⟩
          · rw [hbp]
            exact hos2.1 m hm
          · rw [hbp, heq]
            exact hns2.1 m hm

/-- mergePkgs version of mergeFuel_sorted. -/
theorem mergePkgs_sorted {α : Type} (apid : α → α → List Change) (isInt : GoStr → Bool)
    (sc : Bool) (os ns : List (Pkg α)) (hos : pkgsSorted os) (hns : pkgsSorted ns) :
    reportsSorted (mergePkgs apid isInt sc os ns) :=
  mergeFuel_sorted apid isInt sc (os.length + ns.length) os ns (Nat.le_refl _) hos hns

theorem findPkg_some_path {α : Type} (l : List (Pkg α)) (p : GoStr) (x : Pkg α)
    (h : findPkg l p = some x) : x.pkgPath = p := by
  have h2 := List.find?_some h
  simpa using h2

/-- Claim C4: with sorted package lists and a base version to compare
against (shouldCompare), the merge loop emits package reports in
strictly increasing path order, and for every non-internal path: a path
only in the old list yields exactly one incompatible "package removed"
change, a path only in the new list exactly one compatible "package
added" change, and a path in both (with no load errors) the changes
computed by the structural comparison. -/
theorem claim_C4 {α : Type} (apid : α → α → List Change) (modPath : GoStr)
    (oldPkgs newPkgs : List (Pkg α))
    (hos : pkgsSorted oldPkgs) (hns : pkgsSorted newPkgs) :
    reportsSorted (mergePkgs apid (isInternal modPath) true oldPkgs newPkgs) ∧
    (∀ o ∈ oldPkgs, isInternal modPath o.pkgPath = false →
      (∀ n ∈ newPkgs, n.pkgPath ≠ o.pkgPath) →
      (mergePkgs apid (isInternal modPath) true oldPkgs newPkgs).filter
          (fun pr => pr.path == o.pkgPath) =
        [⟨o.pkgPath, [⟨strBytes "package removed", false⟩], o.errors, []⟩]) ∧
    (∀ n ∈ newPkgs, isInternal modPath n.pkgPath = false →
      (∀ o ∈ oldPkgs, o.pkgPath ≠ n.pkgPath) →
      (mergePkgs apid (isInternal modPath) true oldPkgs newPkgs).filter
          (fun pr => pr.path == n.pkgPath) =
        [⟨n.pkgPath, [⟨strBytes "package added", true⟩], [], n.errors⟩]) ∧
    (∀ o ∈ oldPkgs, ∀ n ∈ newPkgs, o.pkgPath = n.pkgPath →
      isInternal modPath o.pkgPath = false →
      o.errors = [] → n.errors = [] →
      (mergePkgs apid (isInternal modPath) true oldPkgs newPkgs).filter
          (fun pr => pr.path == o.pkgPath) =
        [⟨o.pkgPath, apid o.types n.types, [], []⟩]) := by
  refine ⟨mergePkgs_sorted apid (isInternal modPath) true oldPkgs newPkgs hos hns,
    ?_, ?_, ?_⟩
  · intro o ho hInt hnone
    rw [mergePkgs_filter apid (isInternal modPath) true oldPkgs newPkgs hos hns o.pkgPath,
      mergeSpec_on (findPkg_sorted_mem oldPkgs hos o ho)
        (findPkg_eq_none newPkgs o.pkgPath hnone)]
    simp [oldOnlyReports, hInt]
  · intro n hn hInt hnone
    rw [mergePkgs_filter apid (isInternal modPath) true oldPkgs newPkgs hos hns n.pkgPath,
      mergeSpec_no (findPkg_eq_none oldPkgs n.pkgPath hnone)
        (findPkg_sorted_mem newPkgs hns n hn)]
    simp [newOnlyReports, hInt]
  · intro o ho n hn hpeq hInt hoe hne
    have hfn : findPkg newPkgs o.pkgPath = some n := by
      rw [hpeq]
      exact findPkg_sorted_mem newPkgs hns n hn
    rw [mergePkgs_filter apid (isInternal modPath) true oldPkgs newPkgs hos hns o.pkgPath,
      mergeSpec_oo (findPkg_sorted_mem oldPkgs hos o ho) hfn]
    simp [bothReports, hInt, hoe, hne]

/-- Claim C4 witness: the removed-package case at concrete one-package
snapshots example.com/m/a (old only) and example.com/m/b (new only). -/
theorem claim_C4_wit :
    (mergePkgs (fun (_ _ : Unit) => ([] : List Change))
        (isInternal (strBytes "example.com/m")) true
        [⟨strBytes "example.com/m/a", [], ()⟩]
        [⟨strBytes "example.com/m/b", [], ()⟩]).filter
      (fun pr => pr.path == (⟨strBytes "example.com/m/a", [], ()⟩ : Pkg Unit).pkgPath) =
      [⟨(⟨strBytes "example.com/m/a", [], ()⟩ : Pkg Unit).pkgPath,
        [⟨strBytes "package removed", false⟩],
        (⟨strBytes "example.com/m/a", [], ()⟩ : Pkg Unit).errors, []⟩] :=
  (claim_C4 (fun (_ _ : Unit) => ([] : List Change)) (strBytes "example.com/m")
      [⟨strBytes "example.com/m/a", [], ()⟩] [⟨strBytes "example.com/m/b", [], ()⟩]
      (List.pairwise_singleton _ _) (List.pairwise_singleton _ _)).2.1
    ⟨strBytes "example.com/m/a", [], ()⟩ (List.mem_singleton.mpr rfl) (by decide)
    (by
      intro n hn
      rw [List.mem_singleton] at hn
      subst hn
      decide)

/-- Claim C5 (amended): for every non-internal package path present in
both sorted snapshots, if either side has load errors the package's
report carries no change records — only the recorded old and new
errors, with the structural comparison skipped — and when both error
lists are empty the changes are exactly the structural comparison's
output. -/
theorem claim_C5 {α : Type} (apid : α → α → List Change) (modPath : GoStr) (sc : Bool)
    (oldPkgs newPkgs : List (Pkg α))
    (hos : pkgsSorted oldPkgs) (hns : pkgsSorted newPkgs) :
    ∀ o ∈ oldPkgs, ∀ n ∈ newPkgs, o.pkgPath = n.pkgPath →
      isInternal modPath o.pkgPath = false →
      (¬(o.errors = [] ∧ n.errors = []) →
        (mergePkgs apid (isInternal modPath) sc oldPkgs newPkgs).filter
            (fun pr => pr.path == o.pkgPath) =
          [⟨o.pkgPath, [], o.errors, n.errors⟩]) ∧
      (o.errors = [] → n.errors = [] →
        (mergePkgs apid (isInternal modPath) sc oldPkgs newPkgs).filter
            (fun pr => pr.path == o.pkgPath) =
          [⟨o.pkgPath, apid o.types n.types, [], []⟩]) := by
  intro o ho n hn hpeq hInt
  have hfn : findPkg newPkgs o.pkgPath = some n := by
    rw [hpeq]
    exact findPkg_sorted_mem newPkgs hns n hn
  have hfilter := mergePkgs_filter apid (isInternal modPath) sc oldPkgs newPkgs hos hns
    o.pkgPath
  rw [mergeSpec_oo (findPkg_sorted_mem oldPkgs hos o ho) hfn] at hfilter
  constructor
  · intro herr
    have hb : (o.errors.isEmpty && n.errors.isEmpty) = false := by
      rcases not_and_or.mp herr with h | h
      · simp [List.isEmpty_eq_false.mpr h]
      · simp [List.isEmpty_eq_false.mpr h]
    rw [hfilter]
    simp [bothReports, hInt, hb]
  · intro hoe hne
    rw [hfilter]
    simp [bothReports, hInt, hoe, hne]

/-- Claim C5 witness: the error case at concrete snapshots in which the
old copy of example.com/m/p has a load error. -/
theorem claim_C5_wit :
    (mergePkgs (fun (_ _ : Unit) => [⟨strBytes "field removed", false⟩])
        (isInternal (strBytes "example.com/m")) true
        [⟨strBytes "example.com/m/p", [strBytes "syntax error"], ()⟩]
        [⟨strBytes "example.com/m/p", [], ()⟩]).filter
      (fun pr => pr.path == (⟨strBytes "example.com/m/p",
        [strBytes "syntax error"], ()⟩ : Pkg Unit).pkgPath) =
      [⟨(⟨strBytes "example.com/m/p", [strBytes "syntax error"], ()⟩ : Pkg Unit).pkgPath,
        [], (⟨strBytes "example.com/m/p", [strBytes "syntax error"], ()⟩ : Pkg Unit).errors,
        (⟨strBytes "example.com/m/p", [], ()⟩ : Pkg Unit).errors⟩] :=
  ((claim_C5 (fun (_ _ : Unit) => [⟨strBytes "field removed", false⟩])
      (strBytes "example.com/m") true
      [⟨strBytes "example.com/m/p", [strBytes "syntax error"], ()⟩]
      [⟨strBytes "example.com/m/p", [], ()⟩]
      (List.pairwise_singleton _ _) (List.pairwise_singleton _ _)
      ⟨strBytes "example.com/m/p", [strBytes "syntax error"], ()⟩
      (List.mem_singleton.mpr rfl)
      ⟨strBytes "example.com/m/p", [], ()⟩
      (List.mem_singleton.mpr rfl) rfl (by decide)).1)
    (by decide)

/-- Claim C5 counterexample: an internal package present in both
snapshots with empty error lists on both sides is skipped entirely —
the merge output contains no report for it, so its changes are not "the
result of the structural comparison" (which here would be nonempty),
refuting the claim's "for every package path present in both
snapshots ... the comparison runs exactly when both error lists are
empty". -/
theorem claim_C5_cex :
    isInternal (strBytes "example.com/m") (strBytes "example.com/m/internal/i") = true ∧
    mergePkgs (fun (_ _ : Unit) => [⟨strBytes "synthetic change", true⟩])
        (isInternal (strBytes "example.com/m")) true
        [⟨strBytes "example.com/m/internal/i", [], ()⟩]
        [⟨strBytes "example.com/m/internal/i", [], ()⟩] = [] := by
  refine ⟨by decide, by decide⟩

/-- Claim C6 (amended): internal packages never contribute change
records; their load errors are surfaced when the package is present in
exactly one snapshot (old-only or new-only), but an internal package
present in both snapshots is dropped from the report entirely, its
errors included. -/
theorem claim_C6 {α : Type} (apid : α → α → List Change) (modPath : GoStr) (sc : Bool)
    (oldPkgs newPkgs : List (Pkg α))
    (hos : pkgsSorted oldPkgs) (hns : pkgsSorted newPkgs)
    (p : GoStr) (hInt : isInternal modPath p = true) :
    (∀ pr ∈ mergePkgs apid (isInternal modPath) sc oldPkgs newPkgs,
      pr.path = p → pr.changes = []) ∧
    (∀ o ∈ oldPkgs, o.pkgPath = p → (∀ n ∈ newPkgs, n.pkgPath ≠ p) → o.errors ≠ [] →
      (mergePkgs apid (isInternal modPath) sc oldPkgs newPkgs).filter
          (fun pr => pr.path == p) = [⟨p, [], o.errors, []⟩]) ∧
    (∀ n ∈ newPkgs, n.pkgPath = p → (∀ o ∈ oldPkgs, o.pkgPath ≠ p) → n.errors ≠ [] →
      (mergePkgs apid (isInternal modPath) sc oldPkgs newPkgs).filter
          (fun pr => pr.path == p) = [⟨p, [], [], n.errors⟩]) ∧
    (∀ o ∈ oldPkgs, ∀ n ∈ newPkgs, o.pkgPath = p → n.pkgPath = p →
      (mergePkgs apid (isInternal modPath) sc oldPkgs newPkgs).filter
          (fun pr => pr.path == p) = []) := by
  refine ⟨?_, ?_, ?_, ?_⟩
  · intro pr hpr hpath
    have hmem : pr ∈ (mergePkgs apid (isInternal modPath) sc oldPkgs newPkgs).filter
        (fun pr => pr.path == p) :=
      List.mem_filter.mpr ⟨hpr, by simp [hpath]⟩
    rw [mergePkgs_filter apid (isInternal modPath) sc oldPkgs newPkgs hos hns p] at hmem
    rcases hfo : findPkg oldPkgs p with _ | o <;> rcases hfn : findPkg newPkgs p with _ | n
    · rw [mergeSpec_nn hfo hfn] at hmem
      exact absurd hmem (List.not_mem_nil pr)
    · rw [mergeSpec_no hfo hfn] at hmem
      have hip : isInternal modPath n.pkgPath = true := by
        rw [findPkg_some_path newPkgs p n hfn]
        exact hInt
      unfold newOnlyReports at hmem
      split at hmem
      · exact absurd hmem (List.not_mem_nil pr)
      · rw [List.mem_singleton] at hmem
        subst hmem
        simp [hip]
    · rw [mergeSpec_on hfo hfn] at hmem
      have hip : isInternal modPath o.pkgPath = true := by
        rw [findPkg_some_path oldPkgs p o hfo]
        exact hInt
      unfold oldOnlyReports at hmem
      split at hmem
      · rw [List.mem_singleton] at hmem
        subst hmem
        simp [hip]
      · exact absurd hmem (List.not_mem_nil pr)
    · rw [mergeSpec_oo hfo hfn] at hmem
      have hip : isInternal modPath o.pkgPath = true := by
        rw [findPkg_some_path oldPkgs p o hfo]
        exact hInt
      unfold bothReports at hmem
      rw [if_neg (by simp [hip])] at hmem
      exact absurd hmem (List.not_mem_nil pr)
  · intro o ho hop hnone herr
    have hfo : findPkg oldPkgs p = some o := by
      rw [← hop]
      exact findPkg_sorted_mem oldPkgs hos o ho
    rw [mergePkgs_filter apid (isInternal modPath) sc oldPkgs newPkgs hos hns p,
      mergeSpec_on hfo (findPkg_eq_none newPkgs p hnone)]
    have hip : isInternal modPath o.pkgPath = true := by
      rw [hop]
      exact hInt
    simp [oldOnlyReports, hip, List.isEmpty_eq_false.mpr herr, hop, hInt]
  · intro n hn hnp hnone herr
    have hfn : findPkg newPkgs p = some n := by
      rw [← hnp]
      exact findPkg_sorted_mem newPkgs hns n hn
    rw [mergePkgs_filter apid (isInternal modPath) sc oldPkgs newPkgs hos hns p,
      mergeSpec_no (findPkg_eq_none oldPkgs p hnone) hfn]
    have hip : isInternal modPath n.pkgPath = true := by
      rw [hnp]
      exact hInt
    simp [newOnlyReports, hip, List.isEmpty_eq_false.mpr herr, hnp, hInt]
  · intro o ho n hn hop hnp
    have hfo : findPkg oldPkgs p = some o := by
      rw [← hop]
      exact findPkg_sorted_mem oldPkgs hos o ho
    have hfn : findPkg newPkgs p = some n := by
      rw [← hnp]
      exact findPkg_sorted_mem newPkgs hns n hn
    rw [mergePkgs_filter apid (isInternal modPath) sc oldPkgs newPkgs hos hns p,
      mergeSpec_oo hfo hfn]
    have hip : isInternal modPath o.pkgPath = true := by
      rw [hop]
      exact hInt
    simp [bothReports, hip]

/-- Claim C6 witness: the old-only case at a concrete snapshot where
internal package example.com/m/internal/i has a load error. -/
theorem claim_C6_wit :
    (mergePkgs (fun (_ _ : Unit) => ([] : List Change))
        (isInternal (strBytes "example.com/m")) true
        [⟨strBytes "example.com/m/internal/i", [strBytes "syntax error"], ()⟩]
        ([] : List (Pkg Unit))).filter
      (fun pr => pr.path == strBytes "example.com/m/internal/i") =
      [⟨strBytes "example.com/m/internal/i", [],
        (⟨strBytes "example.com/m/internal/i", [strBytes "syntax error"], ()⟩ :
          Pkg Unit).errors, []⟩] :=
  (claim_C6 (fun (_ _ : Unit) => ([] : List Change)) (strBytes "example.com/m") true
      [⟨strBytes "example.com/m/internal/i", [strBytes "syntax error"], ()⟩]
      ([] : List (Pkg Unit)) (List.pairwise_singleton _ _) List.Pairwise.nil
      (strBytes "example.com/m/internal/i") (by decide)).2.1
    ⟨strBytes "example.com/m/internal/i", [strBytes "syntax error"], ()⟩
    (List.mem_singleton.mpr rfl) rfl (by intro n hn; exact absurd hn (List.not_mem_nil n))
    (by decide)

/-- Claim C6 counterexample: an internal package present in both
snapshots with load errors on both sides yields no package report at
all — its errors are not surfaced anywhere in the merge output,
refuting the claim's "any load/type-check errors recorded for that
package in either snapshot are still surfaced". -/
theorem claim_C6_cex :
    isInternal (strBytes "example.com/m") (strBytes "example.com/m/internal/i") = true ∧
    mergePkgs (fun (_ _ : Unit) => ([] : List Change))
        (isInternal (strBytes "example.com/m")) true
        [⟨strBytes "example.com/m/internal/i", [strBytes "syntax error"], ()⟩]
        [⟨strBytes "example.com/m/internal/i", [strBytes "syntax error"], ()⟩] = [] := by
  refine ⟨by decide, by decide⟩

end Gorelease
